import Mathlib

/- Shallow embedding of the decision-tree library in src/index.js.

   JavaScript numbers are modelled as exact rationals extended with the three
   non-finite values NaN, positive Infinity and negative Infinity; the rounding
   of IEEE doubles is outside the scope of this embedding, all arithmetic is
   exact.  A dataset cell is a number, a string, null or undefined.  JavaScript
   objects used as label-to-count maps are modelled as insertion-ordered
   association lists keyed by the property-key string of the label. -/

namespace DTrees

/-- JavaScript number: an exact rational, or one of the non-finite values. -/
inductive JSNum where
  | num (q : ℚ)
  | nan
  | posInf
  | negInf
  deriving DecidableEq, Repr

/-- JS addition. -/
def jadd : JSNum → JSNum → JSNum
  | .nan, _ => .nan
  | _, .nan => .nan
  | .posInf, .negInf => .nan
  | .negInf, .posInf => .nan
  | .posInf, _ => .posInf
  | _, .posInf => .posInf
  | .negInf, _ => .negInf
  | _, .negInf => .negInf
  | .num a, .num b => .num (a + b)

/-- JS subtraction. -/
def jsub : JSNum → JSNum → JSNum
  | .nan, _ => .nan
  | _, .nan => .nan
  | .posInf, .posInf => .nan
  | .negInf, .negInf => .nan
  | .posInf, _ => .posInf
  | _, .posInf => .negInf
  | .negInf, _ => .negInf
  | _, .negInf => .posInf
  | .num a, .num b => .num (a - b)

/-- JS multiplication (0 times an infinity is NaN). -/
def jmul : JSNum → JSNum → JSNum
  | .nan, _ => .nan
  | _, .nan => .nan
  | .posInf, .posInf => .posInf
  | .posInf, .negInf => .negInf
  | .negInf, .posInf => .negInf
  | .negInf, .negInf => .posInf
  | .posInf, .num b => if b = 0 then .nan else if 0 < b then .posInf else .negInf
  | .num a, .posInf => if a = 0 then .nan else if 0 < a then .posInf else .negInf
  | .negInf, .num b => if b = 0 then .nan else if 0 < b then .negInf else .posInf
  | .num a, .negInf => if a = 0 then .nan else if 0 < a then .negInf else .posInf
  | .num a, .num b => .num (a * b)

/-- JS division (division by zero gives an infinity, 0/0 gives NaN; the
    negative-zero distinction is not modelled, zero divisors count as +0). -/
def jdiv : JSNum → JSNum → JSNum
  | .nan, _ => .nan
  | _, .nan => .nan
  | .posInf, .posInf => .nan
  | .posInf, .negInf => .nan
  | .negInf, .posInf => .nan
  | .negInf, .negInf => .nan
  | .posInf, .num b => if 0 ≤ b then .posInf else .negInf
  | .negInf, .num b => if 0 ≤ b then .negInf else .posInf
  | .num _, .posInf => .num 0
  | .num _, .negInf => .num 0
  | .num a, .num b =>
    if b = 0 then (if a = 0 then .nan else if 0 < a then .posInf else .negInf)
    else .num (a / b)

/-- JS strict less-than on numbers; any comparison with NaN is false. -/
def jltB : JSNum → JSNum → Bool
  | .nan, _ => false
  | _, .nan => false
  | .num a, .num b => decide (a < b)
  | .posInf, _ => false
  | .negInf, .negInf => false
  | .negInf, _ => true
  | .num _, .posInf => true
  | .num _, .negInf => false

/-- JS strict greater-than on numbers. -/
def jgtB (a b : JSNum) : Bool := jltB b a

/-- Number.isNaN. -/
def jIsNaN : JSNum → Bool
  | .nan => true
  | _ => false

/-- Number.isFinite. -/
def jIsFinite : JSNum → Bool
  | .num _ => true
  | _ => false

/-- ToLength, the coercion Array.from applies to a length property. -/
def jsToLength : JSNum → ℕ
  | .nan => 0
  | .negInf => 0
  | .posInf => 2 ^ 53 - 1
  | .num q => if q ≤ 0 then 0 else min q.floor.toNat (2 ^ 53 - 1)

/-- A dataset cell / observation value: number, string, null or undefined. -/
inductive Cell where
  | num (q : ℚ)
  | str (s : String)
  | null
  | undef
  deriving DecidableEq, Repr

/-- The WhiteSpace and LineTerminator characters trimmed by ToNumber. -/
def jsWhitespaceChar (c : Char) : Bool :=
  c.toNat = 0x20 || c.toNat = 0x9 || c.toNat = 0xA || c.toNat = 0xB || c.toNat = 0xC ||
  c.toNat = 0xD || c.toNat = 0xA0 || c.toNat = 0x1680 ||
  (0x2000 ≤ c.toNat && c.toNat ≤ 0x200A) || c.toNat = 0x2028 || c.toNat = 0x2029 ||
  c.toNat = 0x202F || c.toNat = 0x205F || c.toNat = 0x3000 || c.toNat = 0xFEFF

/-- Value of a string of decimal digits. -/
def decDigits (cs : List Char) : ℕ := cs.foldl (fun a c => a * 10 + (c.toNat - 48)) 0

/-- Value of a string of digits in the given base (hex letters allowed). -/
def baseDigitsVal (base : ℕ) (cs : List Char) : ℕ :=
  cs.foldl
    (fun a c =>
      a * base +
        (if 97 ≤ c.toNat then c.toNat - 87
         else if 65 ≤ c.toNat then c.toNat - 55
         else c.toNat - 48))
    0

def isHexDigitChar (c : Char) : Bool :=
  c.isDigit || (65 ≤ c.toNat && c.toNat ≤ 70) || (97 ≤ c.toNat && c.toNat ≤ 102)

def isOctalDigitChar (c : Char) : Bool := 48 ≤ c.toNat && c.toNat ≤ 55

def isBinaryDigitChar (c : Char) : Bool := c.toNat = 48 || c.toNat = 49

/-- StrUnsignedDecimalLiteral: digits, optional fraction, optional exponent;
    none when the characters are not exactly such a literal. -/
def parseDecimalLit (cs : List Char) : Option ℚ :=
  let ip := cs.takeWhile Char.isDigit
  let r1 := cs.dropWhile Char.isDigit
  let fpr : List Char × List Char :=
    match r1 with
    | '.' :: rest => (rest.takeWhile Char.isDigit, rest.dropWhile Char.isDigit)
    | _ => ([], r1)
  let fp := fpr.1
  let r2 := fpr.2
  if ip.isEmpty && fp.isEmpty then none
  else
    let mant : ℚ := (decDigits ip : ℚ) + (decDigits fp : ℚ) / (10 : ℚ) ^ fp.length
    match r2 with
    | [] => some mant
    | c :: r3 =>
      if c = 'e' || c = 'E' then
        let sgnr : ℤ × List Char :=
          match r3 with
          | '+' :: t => (1, t)
          | '-' :: t => (-1, t)
          | _ => (1, r3)
        let ed := sgnr.2.takeWhile Char.isDigit
        let r5 := sgnr.2.dropWhile Char.isDigit
        if ed.isEmpty || !r5.isEmpty then none
        else some (mant * (10 : ℚ) ^ (sgnr.1 * (decDigits ed : ℤ)))
      else none

/-- Signed decimal literal or Infinity. -/
def jsDecimalPath (cs : List Char) : JSNum :=
  let sgn : ℚ × List Char :=
    match cs with
    | '+' :: t => (1, t)
    | '-' :: t => (-1, t)
    | _ => (1, cs)
  if sgn.2 = "Infinity".toList then (if sgn.1 = 1 then .posInf else .negInf)
  else
    match parseDecimalLit sgn.2 with
    | some q => .num (sgn.1 * q)
    | none => .nan

/-- ToNumber on a string: the StringNumericLiteral grammar, with values exact. -/
def jsStringToNumber (s : String) : JSNum :=
  let cs := ((s.toList.dropWhile jsWhitespaceChar).reverse.dropWhile jsWhitespaceChar).reverse
  match cs with
  | [] => .num 0
  | '0' :: c :: rest =>
    if c = 'x' || c = 'X' then
      if !rest.isEmpty && rest.all isHexDigitChar then .num (baseDigitsVal 16 rest : ℚ) else .nan
    else if c = 'o' || c = 'O' then
      if !rest.isEmpty && rest.all isOctalDigitChar then .num (baseDigitsVal 8 rest : ℚ) else .nan
    else if c = 'b' || c = 'B' then
      if !rest.isEmpty && rest.all isBinaryDigitChar then .num (baseDigitsVal 2 rest : ℚ) else .nan
    else jsDecimalPath cs
  | _ => jsDecimalPath cs

/-- ToNumber on a cell value. -/
def toNumber : Cell → JSNum
  | .num q => .num q
  | .str s => jsStringToNumber s
  | .null => .num 0
  | Cell.undef => .nan

/-- Largest power of the base dividing n, with explicit fuel. -/
def factorCountAux (base : ℕ) : ℕ → ℕ → ℕ
  | 0, _ => 0
  | fuel + 1, n =>
    if 1 < base && 0 < n && n % base = 0 then factorCountAux base fuel (n / base) + 1 else 0

def factorCount (base n : ℕ) : ℕ := factorCountAux base n n

/-- JS ToString of a rational number.  Exact for integers and for rationals
    with a terminating decimal expansion (every double printed in fixed
    notation is of this form); other rationals, which are never exact doubles,
    render as num/den.  Exponential notation for very large or very small
    magnitudes is not modelled. -/
def qToString (q : ℚ) : String :=
  if q.den = 1 then toString q.num
  else
    let a := factorCount 2 q.den
    let b := factorCount 5 q.den
    if q.den / 2 ^ a / 5 ^ b = 1 then
      let k := max a b
      let digits := q.num.natAbs * 10 ^ k / q.den
      let ip := digits / 10 ^ k
      let fpStr := toString (digits % 10 ^ k)
      let pad := String.mk (List.replicate (k - fpStr.length) '0') ++ fpStr
      (if q.num < 0 then "-" else "") ++ toString ip ++ "." ++ pad
    else toString q.num ++ "/" ++ toString q.den

/-- JS ToString of a number. -/
def numToString : JSNum → String
  | .nan => "NaN"
  | .posInf => "Infinity"
  | .negInf => "-Infinity"
  | .num q => qToString q

/-- ToString / ToPropertyKey of a cell value. -/
def cellToString : Cell → String
  | .num q => qToString q
  | .str s => s
  | .null => "null"
  | Cell.undef => "undefined"

/-- The e with 10 ^ e ≤ abs q < 10 ^ (e + 1), for q nonzero. -/
def qLog10Floor (q : ℚ) : ℤ :=
  let d : ℤ := (Nat.log 10 q.num.natAbs : ℤ) - (Nat.log 10 q.den : ℤ)
  if (10 : ℚ) ^ d ≤ |q| then d else d - 1

/-- Number.prototype.toPrecision(3), the rendering stored in a node summary. -/
def numToPrecision3 (x : JSNum) : String :=
  match x with
  | .nan => "NaN"
  | .posInf => "Infinity"
  | .negInf => "-Infinity"
  | .num q =>
    if q = 0 then "0.00"
    else
      let sgnStr := if q < 0 then "-" else ""
      let y := |q|
      let e0 := qLog10Floor y
      let n0 := (y * (10 : ℚ) ^ ((2 : ℤ) - e0) + 1 / 2).floor.toNat
      let e := if 1000 ≤ n0 then e0 + 1 else e0
      let n := if 1000 ≤ n0 then 100 else n0
      let ds := toString n
      if e < -6 || 3 ≤ e then
        sgnStr ++ ds.take 1 ++ "." ++ ds.drop 1 ++ "e" ++
          (if 0 ≤ e then "+" else "-") ++ toString e.natAbs
      else if e = 2 then sgnStr ++ ds
      else if e = 1 then sgnStr ++ ds.take 2 ++ "." ++ ds.drop 2
      else if e = 0 then sgnStr ++ ds.take 1 ++ "." ++ ds.drop 1
      else sgnStr ++ "0." ++ String.mk (List.replicate (-(e + 1)).toNat '0') ++ ds

/-- JS abstract relational comparison a < b; none stands for undefined (NaN). -/
def cellLT (a b : Cell) : Option Bool :=
  match a, b with
  | .str s, .str t => some (decide (s < t))
  | _, _ =>
    match toNumber a, toNumber b with
    | .nan, _ => none
    | _, .nan => none
    | x, y => some (jltB x y)

/-- JS comparison a >= b: true exactly when the relational comparison a < b
    evaluates to false (not to undefined). -/
def cellGE (a b : Cell) : Bool :=
  match cellLT a b with
  | some false => true
  | _ => false

/-- JS truthiness of a cell value. -/
def truthy : Cell → Bool
  | .num q => decide (q ≠ 0)
  | .str s => decide (s ≠ "")
  | .null => false
  | Cell.undef => false

/-- Source isNumber: typeof number and not NaN (our cells carry no NaN). -/
def isNumber : Cell → Bool
  | .num _ => true
  | _ => false

/-- A dataset row. -/
abbrev Row := List Cell

/-- row[row.length - 1], the target cell; undefined for an empty row. -/
def targetOf (row : Row) : Cell := row.getLastD Cell.undef

/-- A JS primitive value arising while summing an array: number or string. -/
inductive JSVal where
  | vnum (x : JSNum)
  | vstr (s : String)
  deriving DecidableEq, Repr

/-- JS + of the accumulator and a cell (string operands concatenate). -/
def jsPlusCell (acc : JSVal) (c : Cell) : JSVal :=
  match acc, c with
  | .vstr s, c => .vstr (s ++ cellToString c)
  | .vnum x, .str t => .vstr (numToString x ++ t)
  | .vnum x, c => .vnum (jadd x (toNumber c))

/-- Source sum applied to an array of cells (reduce with +=, from 0). -/
def sumCells (data : List Cell) : JSVal := data.foldl jsPlusCell (.vnum (.num 0))

/-- ToNumber of a primitive value. -/
def jsvalToNumber : JSVal → JSNum
  | .vnum x => x
  | .vstr s => jsStringToNumber s

/-- Source sum applied to an array of numbers. -/
def sumNums (a : List JSNum) : JSNum := a.foldl jadd (.num 0)

/-- A label distribution: a JS object modelled as an insertion-ordered
    association list, keyed by the property-key string of the target value. -/
abbrev Dist := List (String × JSNum)

/-- results[k] += x, creating the property at 0 first when absent. -/
def distIncr : Dist → String → JSNum → Dist
  | [], k, x => [(k, jadd (.num 0) x)]
  | (k0, v) :: rest, k, x =>
    if k0 = k then (k0, jadd v x) :: rest else (k0, v) :: distIncr rest k x

/-- Source uniqueCounts: occurrence counts of the target column. -/
def uniqueCounts (rows : List Row) : Dist :=
  rows.foldl (fun results row => distIncr results (cellToString (targetOf row)) (.num 1)) []

/-- sum(Object.values(d)). -/
def sumValues (d : Dist) : JSNum := sumNums (d.map Prod.snd)

/-- The metric signature: a score function over a row set. -/
abbrev Metric := List Row → JSNum

/-- Source gini: pairwise sum over ordered pairs of distinct observed classes. -/
def gini (rows : List Row) : JSNum :=
  let total : JSNum := .num (rows.length : ℚ)
  let counts := uniqueCounts rows
  counts.foldl
    (fun imp p1 =>
      let q1 := jdiv p1.2 total
      counts.foldl
        (fun imp p2 =>
          if p1.1 = p2.1 then imp else jadd imp (jmul q1 (jdiv p2.2 total)))
        imp)
    (.num 0)

/-- A thrown JS error. -/
inductive JsError where
  | error (msg : String)
  | typeError (msg : String)
  deriving DecidableEq, Repr

/-- Source variance.  The non-numeric check tests the truthiness of the value
    returned by find (a plain JS if), so falsy non-numbers such as null or the
    empty string pass the check. -/
def variance (rows : List Row) : Except JsError JSNum :=
  if rows.isEmpty then .ok (.num 0)
  else
    let data := rows.map targetOf
    let found := data.find? (fun p => !isNumber p)
    if (match found with | some c => truthy c | none => false) then
      .error (.error "Cannot use variance function when the target column is a string.")
    else
      let mean := jdiv (jsvalToNumber (sumCells data)) (.num (data.length : ℚ))
      .ok (jdiv
        (sumNums (data.map (fun d => let dm := jsub (toNumber d) mean; jmul dm dm)))
        (.num (data.length : ℚ)))

/-- Source divideSet: threshold split when the split value is numeric, strict
    equality split otherwise. -/
def divideSet (rows : List Row) (column : ℕ) (value : Cell) : List Row × List Row :=
  let splittingFunction : Row → Bool :=
    if isNumber value then fun row => cellGE (row.getD column Cell.undef) value
    else fun row => decide (row.getD column Cell.undef = value)
  (rows.filter splittingFunction, rows.filter (fun row => !splittingFunction row))

/-- Array.from(new Set(..)): first-occurrence-order deduplication. -/
def insertionDedup (l : List Cell) : List Cell :=
  l.foldl (fun acc c => if c ∈ acc then acc else acc ++ [c]) []

/-- The sort comparator (a, b) => a - b, as a total preorder: a may stay
    before b unless the comparator is strictly positive (a NaN comparator
    result counts as a tie, and the runtime sort is stable). -/
def cellSortLE (a b : Cell) : Bool := !jgtB (jsub (toNumber a) (toNumber b)) (.num 0)

/-- The distinct values of a column in visiting order: deduplicated in
    first-occurrence order, then stably sorted by the a - b comparator. -/
def sortedColumnValues (rows : List Row) (col : ℕ) : List Cell :=
  (insertionDedup (rows.map (fun row => row.getD col Cell.undef))).mergeSort cellSortLE

/-- All (column, value) split candidates in the iteration order of the source
    loops: columns low to high, values in visiting order within a column. -/
def candidateList (rows : List Row) : List (ℕ × Cell) :=
  (List.range ((rows.headD []).length - 1)).flatMap
    (fun col => (sortedColumnValues rows col).map (fun value => (col, value)))

/-- The gain of a candidate split of a row set, given the current score. -/
def gainOf (rows : List Row) (m : Metric) (currentScore : JSNum) (cd : ℕ × Cell) : JSNum :=
  let sets := divideSet rows cd.1 cd.2
  let p := jdiv (.num (sets.1.length : ℚ)) (.num (rows.length : ℚ))
  jsub (jsub currentScore (jmul p (m sets.1))) (jmul (jsub (.num 1) p) (m sets.2))

/-- Both partitions of the candidate split are non-empty. -/
def validCand (rows : List Row) (cd : ℕ × Cell) : Bool :=
  let sets := divideSet rows cd.1 cd.2
  !sets.1.isEmpty && !sets.2.isEmpty

/-- The three mutable accumulators of the split search. -/
structure BestAcc where
  bestGain : JSNum
  bestAttribute : Option (ℕ × Cell)
  bestSets : Option (List Row × List Row)
  deriving DecidableEq, Repr

/-- One iteration of the inner search loop. -/
def evalCandidate (rows : List Row) (m : Metric) (currentScore : JSNum)
    (acc : BestAcc) (cd : ℕ × Cell) : BestAcc :=
  let sets := divideSet rows cd.1 cd.2
  let p := jdiv (.num (sets.1.length : ℚ)) (.num (rows.length : ℚ))
  let gain := jsub (jsub currentScore (jmul p (m sets.1))) (jmul (jsub (.num 1) p) (m sets.2))
  if jgtB gain acc.bestGain && !sets.1.isEmpty && !sets.2.isEmpty then
    ⟨gain, some cd, some sets⟩
  else acc

/-- The whole split search, the two source loops as a fold over candidates. -/
def findBestSplit (rows : List Row) (m : Metric) (currentScore : JSNum) : BestAcc :=
  (candidateList rows).foldl (evalCandidate rows m currentScore) ⟨.num 0, none, none⟩

/-- The dcY summary: impurity rendered to 3 significant digits, sample count. -/
structure Summary where
  impurity : String
  samples : ℕ
  deriving DecidableEq, Repr

/-- The DecisionTree node object: split column and value, optional child
    references, optional results map, optional summary (the bare constructor
    keeps the defaults col = -1, value = null, no children, no results, and
    an empty summary object, modelled as none). -/
inductive DecisionTree where
  | mk (col : ℤ) (value : Cell) (trueBranch : Option DecisionTree)
      (falseBranch : Option DecisionTree) (results : Option Dist)
      (summary : Option Summary)
  deriving Repr

def DecisionTree.col : DecisionTree → ℤ
  | .mk c _ _ _ _ _ => c

def DecisionTree.value : DecisionTree → Cell
  | .mk _ v _ _ _ _ => v

def DecisionTree.trueBranch : DecisionTree → Option DecisionTree
  | .mk _ _ tb _ _ _ => tb

def DecisionTree.falseBranch : DecisionTree → Option DecisionTree
  | .mk _ _ _ fb _ _ => fb

def DecisionTree.results : DecisionTree → Option Dist
  | .mk _ _ _ _ r _ => r

def DecisionTree.summary : DecisionTree → Option Summary
  | .mk _ _ _ _ _ s => s

/-- Source growDecisionTreeFrom.  Recursion is on the partition lists, which
    are strictly shorter than the row set whenever both are non-empty. -/
def growDecisionTreeFrom (rows : List Row) (evaluationFunction : Metric) :
    Except JsError DecisionTree :=
  if rows.isEmpty then .ok (.mk (-1) .null none none none none)
  else
    let currentScore := evaluationFunction rows
    if jIsNaN currentScore then
      .error (.error "Something went wrong. Check the evaluation function.")
    else
      let best := findBestSplit rows evaluationFunction currentScore
      let dcY : Summary := ⟨numToPrecision3 currentScore, rows.length⟩
      if jgtB best.bestGain (.num 0) then
        match hs : best.bestSets, ha : best.bestAttribute with
        | some sets, some attr =>
          (growDecisionTreeFrom sets.1 evaluationFunction).bind fun trueBr =>
            (growDecisionTreeFrom sets.2 evaluationFunction).bind fun falseBr =>
              .ok (.mk (attr.1 : ℤ) attr.2 (some trueBr) (some falseBr) none (some dcY))
        | _, _ => .error (.typeError "reading property of null")
      else .ok (.mk (-1) .null none none (some (uniqueCounts rows)) (some dcY))
termination_by rows.length
decreasing_by
all_goals
  have key : ∀ (l : List (ℕ × Cell)) (acc : BestAcc),
      (∀ st : List Row × List Row, acc.bestSets = some st →
        st.1.length < rows.length ∧ st.2.length < rows.length) →
      ∀ st : List Row × List Row,
        (l.foldl (evalCandidate rows evaluationFunction (evaluationFunction rows)) acc).bestSets
          = some st →
        st.1.length < rows.length ∧ st.2.length < rows.length := by
    intro l
    induction l with
    | nil => exact fun acc hacc => hacc
    | cons cd tl ih =>
      intro acc hacc
      apply ih
      intro st hst
      simp only [evalCandidate] at hst
      split at hst
      case isTrue hcond =>
        simp only [BestAcc.bestSets] at hst
        injection hst with hst
        subst hst
        have hpart : ∀ (p : Row → Bool),
            (rows.filter p).length + (rows.filter (fun r => !p r)).length = rows.length := by
          intro p
          have hperm := (List.filter_append_perm p rows).length_eq
          rw [List.length_append] at hperm
          exact hperm
        simp only [Bool.and_eq_true] at hcond
        obtain ⟨⟨-, h1⟩, h2⟩ := hcond
        rw [Bool.not_eq_true', List.isEmpty_eq_false] at h1 h2
        have hp1 := List.length_pos.mpr h1
        have hp2 := List.length_pos.mpr h2
        simp only [divideSet] at hp1 hp2 ⊢
        have := hpart (if isNumber cd.2 then fun row => cellGE (row.getD cd.1 Cell.undef) cd.2
          else fun row => decide (row.getD cd.1 Cell.undef = cd.2))
        omega
      case isFalse hcond => exact hacc st hst
  have hfin := key (candidateList rows) ⟨.num 0, none, none⟩ (by intro st h; cases h) sets hs
  first
  | exact hfin.1
  | exact hfin.2

/-- observations[i]: undefined when out of range (including col = -1). -/
def obsGet (observations : List Cell) (i : ℤ) : Cell :=
  if i < 0 then Cell.undef else observations.getD i.toNat Cell.undef

/-- Re-expansion of a results map into single-cell pseudo-rows: one [label]
    row per counted unit; Array.from on a length object coerces the count
    through ToLength. -/
def expandDist (d : Dist) : List Row :=
  d.flatMap (fun p => List.replicate (jsToLength p.2) [Cell.str p.1])

/-- The delta recomputed by prune from two leaf result maps: the two label
    multisets are re-expanded into single-cell pseudo-rows, p is the share of
    the true side, and delta is the weighted impurity reduction. -/
def pruneDelta (evaluationFunction : Metric) (trRes frRes : Dist) : JSNum :=
  let tb := expandDist trRes
  let fb := expandDist frRes
  let p := jdiv (.num (tb.length : ℚ)) (.num ((tb.length + fb.length : ℕ) : ℚ))
  jsub (jsub (evaluationFunction (tb ++ fb)) (jmul p (evaluationFunction tb)))
    (jmul (jsub (.num 1) p) (evaluationFunction fb))

/-- The decision taken at a node once both child positions are resolved:
    collapse when both children carry results and the recomputed delta is
    below minGain, otherwise keep the node with the resolved children. -/
def pruneMerge (col : ℤ) (value : Cell) (res : Option Dist) (summary : Option Summary)
    (minGain : ℚ) (evaluationFunction : Metric) (trueBr falseBr : DecisionTree) :
    DecisionTree :=
  match trueBr.results, falseBr.results with
  | some trRes, some frRes =>
    if jltB (pruneDelta evaluationFunction trRes frRes) (.num minGain) then
      .mk col value none none
        (some (uniqueCounts (expandDist trRes ++ expandDist frRes))) summary
    else .mk col value (some trueBr) (some falseBr) res summary
  | _, _ => .mk col value (some trueBr) (some falseBr) res summary

/-- Source prune, the in-place mutation returned functionally.  Reading the
    results property of an absent child throws a TypeError; the notify flag
    only drives a console log and has no effect on the returned tree. -/
def prune (tree : DecisionTree) (minGain : ℚ) (evaluationFunction : Metric)
    (notify : Bool) : Except JsError DecisionTree :=
  match tree with
  | .mk col value tb fb res summary =>
    match tb with
    | none => .error (.typeError "Cannot read properties of undefined (reading results)")
    | some trueBr =>
      (if trueBr.results.isNone then prune trueBr minGain evaluationFunction notify
       else .ok trueBr).bind fun trueBr2 =>
        match fb with
        | none => .error (.typeError "Cannot read properties of undefined (reading results)")
        | some falseBr =>
          (if falseBr.results.isNone then prune falseBr minGain evaluationFunction notify
           else .ok falseBr).bind fun falseBr2 =>
            .ok (pruneMerge col value res summary minGain evaluationFunction trueBr2 falseBr2)

/-- A sequence of prune calls, threaded through the returned trees. -/
def prunes (ops : List (ℚ × Metric × Bool)) (tree : DecisionTree) :
    Except JsError DecisionTree :=
  ops.foldlM (fun t op => prune t op.1 op.2.1 op.2.2) tree

/-- The blending of the two child distributions when the observation value is
    the missing sentinel: each distribution is weighted by its share of the
    combined total and the two are merged per label. -/
def mergeDists (tr fr : Dist) : Dist :=
  let tCount := sumValues tr
  let fCount := sumValues fr
  let tw := jdiv tCount (jadd tCount fCount)
  let fw := jdiv fCount (jadd tCount fCount)
  let result1 := tr.foldl (fun acc p => distIncr acc p.1 (jmul p.2 tw)) []
  fr.foldl (fun acc p => distIncr acc p.1 (jmul p.2 fw)) result1

/-- Exact routing (source classifyWithoutMissingData): descend by the same
    predicate as the splitter; recursing into an absent child throws. -/
def classifyWithoutMissingData (observations : List Cell) :
    DecisionTree → Except JsError Dist
  | .mk col value tb fb res _ =>
    match res with
    | some r => .ok r
    | none =>
      let v := obsGet observations col
      let takeTrue : Bool := if isNumber v then cellGE v value else decide (v = value)
      if takeTrue then
        match tb with
        | some branch => classifyWithoutMissingData observations branch
        | none => .error (.typeError "Cannot read properties of undefined (reading results)")
      else
        match fb with
        | some branch => classifyWithoutMissingData observations branch
        | none => .error (.typeError "Cannot read properties of undefined (reading results)")

/-- Missing-data routing (source classifyWithMissingData): a null observation
    value recurses into both children and blends the two distributions by
    their total weights; any other value routes exactly. -/
def classifyWithMissingData (observations : List Cell) :
    DecisionTree → Except JsError Dist
  | .mk col value tb fb res _ =>
    match res with
    | some r => .ok r
    | none =>
      let v := obsGet observations col
      if v = Cell.null then
        match tb with
        | none => .error (.typeError "Cannot read properties of undefined (reading results)")
        | some trueBr =>
          (classifyWithMissingData observations trueBr).bind fun tr =>
            match fb with
            | none => .error (.typeError "Cannot read properties of undefined (reading results)")
            | some falseBr =>
              (classifyWithMissingData observations falseBr).bind fun fr =>
                .ok (mergeDists tr fr)
      else
        let takeTrue : Bool := if isNumber v then cellGE v value else decide (v = value)
        if takeTrue then
          match tb with
          | some branch => classifyWithMissingData observations branch
          | none => .error (.typeError "Cannot read properties of undefined (reading results)")
        else
          match fb with
          | some branch => classifyWithMissingData observations branch
          | none => .error (.typeError "Cannot read properties of undefined (reading results)")

/-- Source classify entry point. -/
def classify (observations : List Cell) (tree : DecisionTree) (dataMissing : Bool) :
    Except JsError Dist :=
  if dataMissing then classifyWithMissingData observations tree
  else classifyWithoutMissingData observations tree

/-- The two-state node invariant: results present exactly on childless nodes,
    both children present exactly when results is absent, hereditarily. -/
def wfTree : DecisionTree → Bool
  | .mk _ _ tb fb res _ =>
    match res, tb, fb with
    | some _, none, none => true
    | none, some trueBr, some falseBr => wfTree trueBr && wfTree falseBr
    | _, _, _ => false

/-- Total weight stored in the leaves of a tree. -/
def treeTotal : DecisionTree → JSNum
  | .mk _ _ tb fb res _ =>
    match res with
    | some r => sumValues r
    | none =>
      jadd (match tb with | some t => treeTotal t | none => .num 0)
        (match fb with | some t => treeTotal t | none => .num 0)

/-- Lookup with default 0, the reading side of a distribution map. -/
def distGet : Dist → String → JSNum
  | [], _ => .num 0
  | (k0, v) :: rest, k => if k0 = k then v else distGet rest k

/-- Keys of a distribution are pairwise distinct, as for any JS object. -/
def distKeysNodup (d : Dist) : Prop := (d.map Prod.fst).Nodup

/-- Every results map in the tree has pairwise distinct keys and entries
    whose counts are natural numbers, as produced by uniqueCounts. -/
def treeNatResults : DecisionTree → Prop
  | .mk _ _ tb fb res _ =>
    (∀ r, res = some r → distKeysNodup r ∧ ∀ p ∈ r, ∃ n : ℕ, p.2 = JSNum.num (n : ℚ)) ∧
    (∀ t, tb = some t → treeNatResults t) ∧
    (∀ t, fb = some t → treeNatResults t)

/-- Best-gain optimality at every internal node: the recorded split is a
    valid candidate over the row set reaching the node, its gain is strictly
    positive, no candidate with two non-empty partitions has a strictly
    larger gain, and the recorded split is the first candidate in iteration
    order whose gain equals the winning gain. -/
def SplitOptimal (m : Metric) : List Row → DecisionTree → Prop
  | rows, .mk col value tb fb res _ =>
    match res, tb, fb with
    | none, some trueBr, some falseBr =>
      ∃ cn : ℕ,
        col = (cn : ℤ) ∧
        validCand rows (cn, value) = true ∧
        jgtB (gainOf rows m (m rows) (cn, value)) (.num 0) = true ∧
        (∀ cd ∈ candidateList rows, validCand rows cd = true →
          jgtB (gainOf rows m (m rows) cd) (gainOf rows m (m rows) (cn, value)) = false) ∧
        (candidateList rows).find?
          (fun cd => validCand rows cd &&
            decide (gainOf rows m (m rows) cd = gainOf rows m (m rows) (cn, value)))
          = some (cn, value) ∧
        SplitOptimal m (divideSet rows cn value).1 trueBr ∧
        SplitOptimal m (divideSet rows cn value).2 falseBr
    | _, _, _ => True

/-- Invariant of the split-search accumulator after scanning a prefix of the
    candidate list: either nothing was accepted yet and no scanned valid
    candidate had positive gain, or the accepted candidate is a scanned valid
    one holding the best gain, no scanned valid candidate beats it, and it is
    the first scanned candidate achieving that gain. -/
def accInv (rows : List Row) (m : Metric) (cur : JSNum)
    (cands : List (ℕ × Cell)) (acc : BestAcc) : Prop :=
  (acc.bestAttribute = none →
     acc.bestGain = .num 0 ∧ acc.bestSets = none ∧
     ∀ cd ∈ cands, validCand rows cd = true → jgtB (gainOf rows m cur cd) (.num 0) = false) ∧
  (∀ cd0, acc.bestAttribute = some cd0 →
     validCand rows cd0 = true ∧
     acc.bestGain = gainOf rows m cur cd0 ∧
     jgtB acc.bestGain (.num 0) = true ∧
     acc.bestSets = some (divideSet rows cd0.1 cd0.2) ∧
     (∀ cd ∈ cands, validCand rows cd = true →
       jgtB (gainOf rows m cur cd) acc.bestGain = false) ∧
     cands.find? (fun cd => validCand rows cd && decide (gainOf rows m cur cd = acc.bestGain))
       = some cd0)

/-- The rational value of a finite number, 0 otherwise; a reading aid for
    stating weight sums. -/
def valQ : JSNum → ℚ
  | .num q => q
  | _ => 0

/-- The worked example dataset of the spec. -/
def rows4 : List Row :=
  [[.num 1, .str "A"], [.num 2, .str "A"], [.num 3, .str "B"], [.num 4, .str "B"]]

/-- The tree grown from rows4 with the Gini metric. -/
def tree4 : DecisionTree :=
  .mk 0 (.num 3)
    (some (.mk (-1) .null none none (some [("B", .num 2)]) (some ⟨"0.00", 2⟩)))
    (some (.mk (-1) .null none none (some [("A", .num 2)]) (some ⟨"0.00", 2⟩)))
    none (some ⟨"0.500", 4⟩)

/-- A dataset whose only column is categorical and whose two candidate splits
    tie at the winning gain, with first-occurrence order b before a. -/
def rowsBA : List Row := [[.str "b", .str "X"], [.str "a", .str "Y"]]

/-- A metric that is constantly positive Infinity (not finite, not NaN). -/
def constInfMetric : Metric := fun _ => .posInf

/-- The tree grown from rowsBA with the Gini metric: both candidate splits of
    column 0 tie at gain one half, and the code keeps value b, the first one
    visited, although a sorts before b. -/
def treeBA : DecisionTree :=
  .mk 0 (.str "b")
    (some (.mk (-1) .null none none (some [("X", .num 1)]) (some ⟨"0.00", 1⟩)))
    (some (.mk (-1) .null none none (some [("Y", .num 1)]) (some ⟨"0.00", 1⟩)))
    none (some ⟨"0.500", 2⟩)

/-- Mean squared deviation of a list of rationals from its mean. -/
def msdQ (qs : List ℚ) : ℚ :=
  let mean := qs.sum / qs.length
  (qs.map (fun d => (d - mean) * (d - mean))).sum / qs.length

lemma jadd_zero_left (x : JSNum) : jadd (.num 0) x = x := by
  cases x <;> simp [jadd]

lemma jadd_zero_right (x : JSNum) : jadd x (.num 0) = x := by
  cases x <;> simp [jadd]

lemma jltB_trans {a b c : JSNum} (h1 : jltB a b = true) (h2 : jltB b c = true) :
    jltB a c = true := by
  cases a <;> cases b <;> cases c <;> simp_all [jltB] <;> linarith

lemma jgtB_trans {a b c : JSNum} (h1 : jgtB b a = true) (h2 : jgtB c b = true) :
    jgtB c a = true := jltB_trans h1 h2

lemma jltB_irrefl (a : JSNum) : jltB a a = false := by
  cases a <;> simp [jltB]

lemma jgtB_irrefl (a : JSNum) : jgtB a a = false := jltB_irrefl a

lemma ne_nan_of_jgtB_left {a b : JSNum} (h : jgtB a b = true) : a ≠ JSNum.nan := by
  cases a <;> cases b <;> simp_all [jgtB, jltB]

lemma jsub_ne_nan {a b : JSNum} (h : jsub a b ≠ .nan) : a ≠ JSNum.nan ∧ b ≠ JSNum.nan := by
  cases a <;> cases b <;> simp_all [jsub]

lemma jmul_num_ne_nan {p : ℚ} {x : JSNum} (hp : p ≠ 0) (h : jmul (.num p) x ≠ .nan) :
    x ≠ JSNum.nan := by
  cases x <;> simp_all [jmul]

lemma jdiv_num_num {a b : ℚ} (hb : b ≠ 0) : jdiv (.num a) (.num b) = .num (a / b) := by
  simp [jdiv, hb]

lemma divideSet_length (rows : List Row) (c : ℕ) (v : Cell) :
    (divideSet rows c v).1.length + (divideSet rows c v).2.length = rows.length := by
  simp only [divideSet]
  have hperm := (List.filter_append_perm
    (if isNumber v then fun row => cellGE (row.getD c Cell.undef) v
     else fun row => decide (row.getD c Cell.undef = v)) rows).length_eq
  rw [List.length_append] at hperm
  exact hperm

lemma validCand_lengths {rows : List Row} {cd : ℕ × Cell} (h : validCand rows cd = true) :
    0 < (divideSet rows cd.1 cd.2).1.length ∧ 0 < (divideSet rows cd.1 cd.2).2.length ∧
    (divideSet rows cd.1 cd.2).1.length < rows.length ∧
    (divideSet rows cd.1 cd.2).2.length < rows.length := by
  simp only [validCand, Bool.and_eq_true, Bool.not_eq_true', List.isEmpty_eq_false] at h
  have h1 := List.length_pos.mpr h.1
  have h2 := List.length_pos.mpr h.2
  have := divideSet_length rows cd.1 cd.2
  omega

lemma evalCandidate_eq (rows : List Row) (m : Metric) (cur : JSNum) (acc : BestAcc)
    (cd : ℕ × Cell) :
    evalCandidate rows m cur acc cd =
      if jgtB (gainOf rows m cur cd) acc.bestGain && validCand rows cd then
        ⟨gainOf rows m cur cd, some cd, some (divideSet rows cd.1 cd.2)⟩
      else acc := by
  simp only [evalCandidate, gainOf, validCand, Bool.and_assoc]

lemma accInv_init (rows : List Row) (m : Metric) (cur : JSNum) :
    accInv rows m cur [] ⟨.num 0, none, none⟩ := by
  constructor
  · exact fun _ => ⟨rfl, rfl, by simp⟩
  · intro cd0 h
    exact Option.noConfusion h

lemma accInv_step (rows : List Row) (m : Metric) (cur : JSNum)
    (cands : List (ℕ × Cell)) (acc : BestAcc) (cd : ℕ × Cell)
    (h : accInv rows m cur cands acc) :
    accInv rows m cur (cands ++ [cd]) (evalCandidate rows m cur acc cd) := by
  rw [evalCandidate_eq]
  by_cases hcond : (jgtB (gainOf rows m cur cd) acc.bestGain && validCand rows cd) = true
  · rw [if_pos hcond]
    rw [Bool.and_eq_true] at hcond
    obtain ⟨hgt, hval⟩ := hcond
    have hgt0 : jgtB (gainOf rows m cur cd) (.num 0) = true := by
      rcases hattr : acc.bestAttribute with _ | cd1
      · have h0 := (h.1 hattr).1
        rw [h0] at hgt
        exact hgt
      · exact jgtB_trans (h.2 cd1 hattr).2.2.1 hgt
    have hnobeat : ∀ cd2 ∈ cands, validCand rows cd2 = true →
        jgtB (gainOf rows m cur cd2) (gainOf rows m cur cd) = false := by
      intro cd2 hmem hval2
      by_contra hcontra
      rw [Bool.not_eq_false] at hcontra
      rcases hattr : acc.bestAttribute with _ | cd1
      · have h0 := h.1 hattr
        rw [h0.1] at hgt
        have hbad := jgtB_trans hgt hcontra
        rw [h0.2.2 cd2 hmem hval2] at hbad
        exact Bool.noConfusion hbad
      · have hc := h.2 cd1 hattr
        have hbad := jgtB_trans hgt hcontra
        rw [hc.2.2.2.2.1 cd2 hmem hval2] at hbad
        exact Bool.noConfusion hbad
    have hnoeq : ∀ cd2 ∈ cands, validCand rows cd2 = true →
        gainOf rows m cur cd2 ≠ gainOf rows m cur cd := by
      intro cd2 hmem hval2 heq
      rcases hattr : acc.bestAttribute with _ | cd1
      · have h0 := h.1 hattr
        have hx2 := h0.2.2 cd2 hmem hval2
        rw [heq] at hx2
        rw [h0.1] at hgt
        rw [hx2] at hgt
        exact Bool.noConfusion hgt
      · have hc := h.2 cd1 hattr
        have hx2 := hc.2.2.2.2.1 cd2 hmem hval2
        rw [heq] at hx2
        rw [hx2] at hgt
        exact Bool.noConfusion hgt
    constructor
    · intro hnone
      exact Option.noConfusion hnone
    · intro cd0 hcd0
      have hcd0 : cd = cd0 := Option.some.inj hcd0
      subst hcd0
      refine ⟨hval, rfl, hgt0, rfl, ?_, ?_⟩
      · intro cd2 hmem hval2
        rcases List.mem_append.mp hmem with hm | hm
        · exact hnobeat cd2 hm hval2
        · have : cd2 = cd := by simpa using hm
          subst this
          exact jgtB_irrefl _
      · have hnone : cands.find? (fun cd2 => validCand rows cd2 &&
            decide (gainOf rows m cur cd2 = gainOf rows m cur cd)) = none := by
          rw [List.find?_eq_none]
          intro x hx hpx
          rw [Bool.and_eq_true] at hpx
          exact hnoeq x hx hpx.1 (of_decide_eq_true hpx.2)
        rw [List.find?_append, hnone]
        simp [List.find?, hval]
  · rw [if_neg hcond]
    rw [Bool.not_eq_true, Bool.and_eq_false_iff] at hcond
    constructor
    · intro hattr
      obtain ⟨hg0, hsets, hall⟩ := h.1 hattr
      refine ⟨hg0, hsets, ?_⟩
      intro cd2 hmem hv2
      rcases List.mem_append.mp hmem with hm | hm
      · exact hall cd2 hm hv2
      · have : cd2 = cd := by simpa using hm
        subst this
        rcases hcond with hc | hc
        · rw [hg0] at hc
          exact hc
        · rw [hv2] at hc
          exact Bool.noConfusion hc
    · intro cd0 hattr
      have hc := h.2 cd0 hattr
      refine ⟨hc.1, hc.2.1, hc.2.2.1, hc.2.2.2.1, ?_, ?_⟩
      · intro cd2 hmem hv2
        rcases List.mem_append.mp hmem with hm | hm
        · exact hc.2.2.2.2.1 cd2 hm hv2
        · have : cd2 = cd := by simpa using hm
          subst this
          rcases hcond with hcf | hcf
          · exact hcf
          · rw [hv2] at hcf
            exact Bool.noConfusion hcf
      · rw [List.find?_append, hc.2.2.2.2.2]
        rfl

lemma accInv_fold (rows : List Row) (m : Metric) (cur : JSNum) (l : List (ℕ × Cell)) :
    ∀ (cands : List (ℕ × Cell)) (acc : BestAcc), accInv rows m cur cands acc →
      accInv rows m cur (cands ++ l) (l.foldl (evalCandidate rows m cur) acc) := by
  induction l with
  | nil =>
    intro cands acc h
    simpa using h
  | cons cd tl ih =>
    intro cands acc h
    have h3 := ih (cands ++ [cd]) _ (accInv_step rows m cur cands acc cd h)
    simpa [List.append_assoc] using h3

lemma findBestSplit_spec (rows : List Row) (m : Metric) (cur : JSNum) :
    accInv rows m cur (candidateList rows) (findBestSplit rows m cur) := by
  have h := accInv_fold rows m cur (candidateList rows) [] ⟨.num 0, none, none⟩
    (accInv_init rows m cur)
  simpa [findBestSplit] using h

lemma findBestSplit_pos (rows : List Row) (m : Metric) (cur : JSNum)
    (hpos : jgtB (findBestSplit rows m cur).bestGain (.num 0) = true) :
    ∃ cd0, (findBestSplit rows m cur).bestAttribute = some cd0 ∧
      (findBestSplit rows m cur).bestSets = some (divideSet rows cd0.1 cd0.2) ∧
      validCand rows cd0 = true ∧
      (findBestSplit rows m cur).bestGain = gainOf rows m cur cd0 := by
  rcases hattr : (findBestSplit rows m cur).bestAttribute with _ | cd0
  · have h0 := (findBestSplit_spec rows m cur).1 hattr
    rw [h0.1] at hpos
    simp [jgtB, jltB] at hpos
  · have hc := (findBestSplit_spec rows m cur).2 cd0 hattr
    exact ⟨cd0, rfl, hc.2.2.2.1, hc.1, hc.2.1⟩

lemma grow_empty (m : Metric) :
    growDecisionTreeFrom [] m = .ok (.mk (-1) .null none none none none) := by
  unfold growDecisionTreeFrom
  simp

lemma grow_nan (rows : List Row) (m : Metric) (hne : rows ≠ [])
    (hnan : jIsNaN (m rows) = true) :
    growDecisionTreeFrom rows m =
      .error (.error "Something went wrong. Check the evaluation function.") := by
  unfold growDecisionTreeFrom
  simp [List.isEmpty_eq_false.mpr hne, hnan]

lemma grow_leaf (rows : List Row) (m : Metric) (hne : rows ≠ [])
    (hnan : jIsNaN (m rows) = false)
    (hpos : jgtB (findBestSplit rows m (m rows)).bestGain (.num 0) = false) :
    growDecisionTreeFrom rows m =
      .ok (.mk (-1) .null none none (some (uniqueCounts rows))
        (some ⟨numToPrecision3 (m rows), rows.length⟩)) := by
  unfold growDecisionTreeFrom
  simp [List.isEmpty_eq_false.mpr hne, hnan, hpos]

lemma grow_split (rows : List Row) (m : Metric) (s1 s2 : List Row)
    (attr : ℕ × Cell) (hne : rows ≠ []) (hnan : jIsNaN (m rows) = false)
    (hpos : jgtB (findBestSplit rows m (m rows)).bestGain (.num 0) = true)
    (hs : (findBestSplit rows m (m rows)).bestSets = some (s1, s2))
    (ha : (findBestSplit rows m (m rows)).bestAttribute = some attr) :
    growDecisionTreeFrom rows m =
      (growDecisionTreeFrom s1 m).bind fun trueBr =>
        (growDecisionTreeFrom s2 m).bind fun falseBr =>
          .ok (.mk (attr.1 : ℤ) attr.2 (some trueBr) (some falseBr) none
            (some ⟨numToPrecision3 (m rows), rows.length⟩)) := by
  conv_lhs => unfold growDecisionTreeFrom
  simp only [List.isEmpty_eq_false.mpr hne, hnan, hpos, Bool.false_eq_true, if_false, if_true]
  split
  next sets1 attr1 heqs heqa =>
    rw [heqs] at hs
    rw [heqa] at ha
    injection hs with hs
    injection ha with ha
    subst hs
    subst ha
    rfl
  next hcontra => exact (hcontra (s1, s2) attr hs ha).elim

lemma foldl_jadd_valq (l : List JSNum) (h : ∀ x ∈ l, ∃ q : ℚ, x = .num q) (a : ℚ) :
    l.foldl jadd (.num a) = .num (a + (l.map valQ).sum) := by
  induction l generalizing a with
  | nil => simp
  | cons x tl ih =>
    obtain ⟨q, hq⟩ := h x (List.mem_cons_self x tl)
    subst hq
    rw [List.foldl_cons, show jadd (.num a) (.num q) = .num (a + q) from rfl,
      ih (fun y hy => h y (List.mem_cons_of_mem _ hy)) (a + q)]
    simp [valQ]
    ring

lemma sumValues_eq_valq {d : Dist} (h : ∀ p ∈ d, ∃ q : ℚ, p.2 = JSNum.num q) :
    sumValues d = .num ((d.map (fun p => valQ p.2)).sum) := by
  have hh : ∀ x ∈ d.map Prod.snd, ∃ q : ℚ, x = JSNum.num q := by
    intro x hx
    obtain ⟨p, hp, hpx⟩ := List.mem_map.mp hx
    exact hpx ▸ h p hp
  have := foldl_jadd_valq (d.map Prod.snd) hh 0
  simpa [sumValues, sumNums, List.map_map, Function.comp] using this

lemma distIncr_nat {d : Dist} (h : ∀ p ∈ d, ∃ n : ℕ, p.2 = JSNum.num (n : ℚ))
    (k : String) : ∀ p ∈ distIncr d k (.num 1), ∃ n : ℕ, p.2 = JSNum.num (n : ℚ) := by
  induction d with
  | nil =>
    intro p hp
    simp only [distIncr, List.mem_singleton] at hp
    subst hp
    exact ⟨1, by norm_num [jadd]⟩
  | cons hd tl ih =>
    intro p hp
    obtain ⟨k0, v⟩ := hd
    simp only [distIncr] at hp
    split at hp
    · rcases List.mem_cons.mp hp with hp1 | hp1
      · obtain ⟨n, hn⟩ := h (k0, v) (List.mem_cons_self _ _)
        subst hp1
        refine ⟨n + 1, ?_⟩
        simp only at hn ⊢
        rw [hn]
        norm_num [jadd]
      · exact h p (List.mem_cons_of_mem _ hp1)
    · rcases List.mem_cons.mp hp with hp1 | hp1
      · subst hp1
        exact h (k0, v) (List.mem_cons_self _ _)
      · exact ih (fun p2 hp2 => h p2 (List.mem_cons_of_mem _ hp2)) p hp1

lemma distIncr_one_valq {d : Dist} (h : ∀ p ∈ d, ∃ q : ℚ, p.2 = JSNum.num q)
    (k : String) :
    ((distIncr d k (.num 1)).map (fun p => valQ p.2)).sum
      = (d.map (fun p => valQ p.2)).sum + 1 := by
  induction d with
  | nil => simp [distIncr, jadd, valQ]
  | cons hd tl ih =>
    obtain ⟨k0, v⟩ := hd
    obtain ⟨q, hq⟩ := h (k0, v) (List.mem_cons_self _ _)
    simp only at hq
    simp only [distIncr]
    split
    · subst hq
      simp [jadd, valQ]
      ring
    · simp only [List.map_cons, List.sum_cons,
        ih (fun p2 hp2 => h p2 (List.mem_cons_of_mem _ hp2))]
      ring

lemma distIncr_keys (d : Dist) (k : String) (x : JSNum) :
    (distIncr d k x).map Prod.fst =
      if k ∈ d.map Prod.fst then d.map Prod.fst else d.map Prod.fst ++ [k] := by
  induction d with
  | nil => simp [distIncr]
  | cons hd tl ih =>
    obtain ⟨k0, v⟩ := hd
    simp only [distIncr]
    split
    next heq =>
      subst heq
      simp
    next hne =>
      have : (k ∈ (k0, v).1 :: tl.map Prod.fst) = (k ∈ tl.map Prod.fst) := by
        simp only [List.mem_cons]
        exact propext ⟨fun hc => hc.resolve_left (fun hc2 => hne hc2.symm), Or.inr⟩
      simp only [List.map_cons, ih]
      split
      next hin => simp [List.mem_cons, hin]
      next hnin =>
        rw [if_neg (by
          simp only [List.mem_cons]
          rintro (hc | hc)
          · exact hne hc.symm
          · exact hnin hc)]
        simp

lemma distIncr_keys_nodup {d : Dist} (h : (d.map Prod.fst).Nodup) (k : String)
    (x : JSNum) : ((distIncr d k x).map Prod.fst).Nodup := by
  rw [distIncr_keys]
  split
  · exact h
  next hnin => simp [List.nodup_append, h, hnin]

lemma uniqueCounts_fold (rows : List Row) :
    ∀ acc : Dist,
      (∀ p ∈ acc, ∃ n : ℕ, p.2 = JSNum.num (n : ℚ)) →
      (acc.map Prod.fst).Nodup →
      (∀ p ∈ rows.foldl
          (fun r row => distIncr r (cellToString (targetOf row)) (.num 1)) acc,
          ∃ n : ℕ, p.2 = JSNum.num (n : ℚ)) ∧
      (((rows.foldl (fun r row => distIncr r (cellToString (targetOf row)) (.num 1)) acc).map
          (fun p => valQ p.2)).sum
        = (acc.map (fun p => valQ p.2)).sum + rows.length) ∧
      ((rows.foldl (fun r row => distIncr r (cellToString (targetOf row)) (.num 1)) acc).map
          Prod.fst).Nodup := by
  induction rows with
  | nil =>
    intro acc hnat hnd
    exact ⟨hnat, by simp, hnd⟩
  | cons row tl ih =>
    intro acc hnat hnd
    have hq : ∀ p ∈ acc, ∃ q : ℚ, p.2 = JSNum.num q := by
      intro p hp
      obtain ⟨n, hn⟩ := hnat p hp
      exact ⟨n, hn⟩
    have hstep := ih (distIncr acc (cellToString (targetOf row)) (.num 1))
      (distIncr_nat hnat _) (distIncr_keys_nodup hnd _ _)
    refine ⟨hstep.1, ?_, hstep.2.2⟩
    rw [List.foldl_cons, hstep.2.1, distIncr_one_valq hq]
    simp only [List.length_cons]
    push_cast
    ring

lemma uniqueCounts_nat (rows : List Row) :
    ∀ p ∈ uniqueCounts rows, ∃ n : ℕ, p.2 = JSNum.num (n : ℚ) :=
  (uniqueCounts_fold rows [] (by simp) (by simp)).1

lemma uniqueCounts_keys_nodup (rows : List Row) :
    ((uniqueCounts rows).map Prod.fst).Nodup :=
  (uniqueCounts_fold rows [] (by simp) (by simp)).2.2

lemma sumValues_uniqueCounts (rows : List Row) :
    sumValues (uniqueCounts rows) = .num (rows.length : ℚ) := by
  have h := (uniqueCounts_fold rows [] (by simp) (by simp)).2.1
  rw [sumValues_eq_valq (fun p hp => by
    obtain ⟨n, hn⟩ := uniqueCounts_nat rows p hp
    exact ⟨n, hn⟩)]
  rw [show uniqueCounts rows
      = rows.foldl (fun r row => distIncr r (cellToString (targetOf row)) (.num 1)) []
    from rfl, h]
  simp

lemma jIsNaN_false_iff {x : JSNum} : jIsNaN x = false ↔ x ≠ .nan := by
  cases x <;> simp [jIsNaN]

lemma gain_children_not_nan {rows : List Row} {m : Metric} {cd : ℕ × Cell}
    (hrows : rows ≠ []) (hval : validCand rows cd = true)
    (hnan : gainOf rows m (m rows) cd ≠ .nan) :
    jIsNaN (m (divideSet rows cd.1 cd.2).1) = false ∧
    jIsNaN (m (divideSet rows cd.1 cd.2).2) = false := by
  have hlens := validCand_lengths hval
  have hrl : (0 : ℚ) < (rows.length : ℚ) := by
    have : 0 < rows.length := List.length_pos.mpr hrows
    exact_mod_cast this
  simp only [gainOf] at hnan
  obtain ⟨hleft, hright⟩ := jsub_ne_nan hnan
  obtain ⟨-, hmul1⟩ := jsub_ne_nan hleft
  have hp : jdiv (.num ((divideSet rows cd.1 cd.2).1.length : ℚ))
      (.num (rows.length : ℚ)) = .num ((divideSet rows cd.1 cd.2).1.length / rows.length) :=
    jdiv_num_num (by positivity)
  constructor
  · rw [jIsNaN_false_iff]
    rw [hp] at hmul1
    refine jmul_num_ne_nan ?_ hmul1
    have h1 : (0 : ℚ) < ((divideSet rows cd.1 cd.2).1.length : ℚ) := by
      exact_mod_cast hlens.1
    positivity
  · rw [jIsNaN_false_iff]
    rw [hp] at hright
    have hsub : jsub (.num 1) (.num ((divideSet rows cd.1 cd.2).1.length / rows.length))
        = .num (1 - (divideSet rows cd.1 cd.2).1.length / rows.length) := rfl
    rw [hsub] at hright
    refine jmul_num_ne_nan ?_ hright
    have hlt : ((divideSet rows cd.1 cd.2).1.length : ℚ) < (rows.length : ℚ) := by
      exact_mod_cast hlens.2.2.1
    have : (0 : ℚ) < 1 - (divideSet rows cd.1 cd.2).1.length / rows.length := by
      rw [sub_pos, div_lt_one hrl]
      exact hlt
    positivity

lemma treeTotal_grow_aux : ∀ (n : ℕ) (rows : List Row) (m : Metric) (t : DecisionTree),
    rows.length ≤ n → growDecisionTreeFrom rows m = .ok t →
    treeTotal t = .num (rows.length : ℚ) := by
  intro n
  induction n with
  | zero =>
    intro rows m t hlen hok
    have hnil : rows = [] := List.length_eq_zero.mp (Nat.le_zero.mp hlen)
    subst hnil
    rw [grow_empty] at hok
    injection hok with hok
    subst hok
    show jadd (.num 0) (.num 0) = _
    norm_num [jadd]
  | succ n ih =>
    intro rows m t hlen hok
    by_cases hrows : rows = []
    · subst hrows
      rw [grow_empty] at hok
      injection hok with hok
      subst hok
      show jadd (.num 0) (.num 0) = _
      norm_num [jadd]
    · by_cases hnan : jIsNaN (m rows) = true
      · rw [grow_nan rows m hrows hnan] at hok
        exact Except.noConfusion hok
      · rw [Bool.not_eq_true] at hnan
        by_cases hpos : jgtB (findBestSplit rows m (m rows)).bestGain (.num 0) = true
        · obtain ⟨cd0, ha, hs, hval, hgain⟩ := findBestSplit_pos rows m (m rows) hpos
          rw [grow_split rows m (divideSet rows cd0.1 cd0.2).1 (divideSet rows cd0.1 cd0.2).2
            cd0 hrows hnan hpos (by rw [hs]) ha] at hok
          cases hok1 : growDecisionTreeFrom (divideSet rows cd0.1 cd0.2).1 m with
          | error e =>
            rw [hok1] at hok
            exact Except.noConfusion hok
          | ok t1 =>
            cases hok2 : growDecisionTreeFrom (divideSet rows cd0.1 cd0.2).2 m with
            | error e =>
              rw [hok1, hok2] at hok
              exact Except.noConfusion hok
            | ok t2 =>
              rw [hok1, hok2] at hok
              injection hok with hok
              subst hok
              have hlens := validCand_lengths hval
              have h1 := ih (divideSet rows cd0.1 cd0.2).1 m t1 (by omega) hok1
              have h2 := ih (divideSet rows cd0.1 cd0.2).2 m t2 (by omega) hok2
              have hsum := divideSet_length rows cd0.1 cd0.2
              show jadd (treeTotal t1) (treeTotal t2) = _
              rw [h1, h2]
              show JSNum.num _ = _
              congr 1
              exact_mod_cast hsum
        · rw [Bool.not_eq_true] at hpos
          rw [grow_leaf rows m hrows hnan hpos] at hok
          injection hok with hok
          subst hok
          exact sumValues_uniqueCounts rows

lemma wfTree_grow_aux : ∀ (n : ℕ) (rows : List Row) (m : Metric) (t : DecisionTree),
    rows.length ≤ n → rows ≠ [] → growDecisionTreeFrom rows m = .ok t →
    wfTree t = true := by
  intro n
  induction n with
  | zero =>
    intro rows m t hlen hne _
    exact absurd (List.length_eq_zero.mp (Nat.le_zero.mp hlen)) hne
  | succ n ih =>
    intro rows m t hlen hrows hok
    by_cases hnan : jIsNaN (m rows) = true
    · rw [grow_nan rows m hrows hnan] at hok
      exact Except.noConfusion hok
    · rw [Bool.not_eq_true] at hnan
      by_cases hpos : jgtB (findBestSplit rows m (m rows)).bestGain (.num 0) = true
      · obtain ⟨cd0, ha, hs, hval, hgain⟩ := findBestSplit_pos rows m (m rows) hpos
        rw [grow_split rows m (divideSet rows cd0.1 cd0.2).1 (divideSet rows cd0.1 cd0.2).2
          cd0 hrows hnan hpos (by rw [hs]) ha] at hok
        cases hok1 : growDecisionTreeFrom (divideSet rows cd0.1 cd0.2).1 m with
        | error e =>
          rw [hok1] at hok
          exact Except.noConfusion hok
        | ok t1 =>
          cases hok2 : growDecisionTreeFrom (divideSet rows cd0.1 cd0.2).2 m with
          | error e =>
            rw [hok1, hok2] at hok
            exact Except.noConfusion hok
          | ok t2 =>
            rw [hok1, hok2] at hok
            injection hok with hok
            subst hok
            have hlens := validCand_lengths hval
            have h1 := ih (divideSet rows cd0.1 cd0.2).1 m t1 (by omega)
              (by rw [← List.length_pos]; exact hlens.1) hok1
            have h2 := ih (divideSet rows cd0.1 cd0.2).2 m t2 (by omega)
              (by rw [← List.length_pos]; exact hlens.2.1) hok2
            show (wfTree t1 && wfTree t2) = true
            rw [h1, h2]
            rfl
      · rw [Bool.not_eq_true] at hpos
        rw [grow_leaf rows m hrows hnan hpos] at hok
        injection hok with hok
        subst hok
        rfl

lemma grow_ok_aux : ∀ (n : ℕ) (rows : List Row) (m : Metric),
    rows.length ≤ n → jIsNaN (m rows) = false →
    ∃ t, growDecisionTreeFrom rows m = .ok t := by
  intro n
  induction n with
  | zero =>
    intro rows m hlen _
    have hnil : rows = [] := List.length_eq_zero.mp (Nat.le_zero.mp hlen)
    subst hnil
    exact ⟨_, grow_empty m⟩
  | succ n ih =>
    intro rows m hlen hnan
    by_cases hrows : rows = []
    · subst hrows
      exact ⟨_, grow_empty m⟩
    · by_cases hpos : jgtB (findBestSplit rows m (m rows)).bestGain (.num 0) = true
      · obtain ⟨cd0, ha, hs, hval, hgain⟩ := findBestSplit_pos rows m (m rows) hpos
        have hgnan : gainOf rows m (m rows) cd0 ≠ .nan := by
          rw [← hgain]
          exact ne_nan_of_jgtB_left hpos
        have hchild := gain_children_not_nan hrows hval hgnan
        have hlens := validCand_lengths hval
        obtain ⟨t1, h1⟩ := ih (divideSet rows cd0.1 cd0.2).1 m (by omega) hchild.1
        obtain ⟨t2, h2⟩ := ih (divideSet rows cd0.1 cd0.2).2 m (by omega) hchild.2
        refine ⟨.mk (cd0.1 : ℤ) cd0.2 (some t1) (some t2) none
          (some ⟨numToPrecision3 (m rows), rows.length⟩), ?_⟩
        rw [grow_split rows m (divideSet rows cd0.1 cd0.2).1 (divideSet rows cd0.1 cd0.2).2
          cd0 hrows hnan hpos (by rw [hs]) ha, h1, h2]
        rfl
      · rw [Bool.not_eq_true] at hpos
        exact ⟨_, grow_leaf rows m hrows hnan hpos⟩

lemma splitOptimal_grow_aux : ∀ (n : ℕ) (rows : List Row) (m : Metric) (t : DecisionTree),
    rows.length ≤ n → growDecisionTreeFrom rows m = .ok t →
    SplitOptimal m rows t := by
  intro n
  induction n with
  | zero =>
    intro rows m t hlen hok
    have hnil : rows = [] := List.length_eq_zero.mp (Nat.le_zero.mp hlen)
    subst hnil
    rw [grow_empty] at hok
    injection hok with hok
    subst hok
    simp [SplitOptimal]
  | succ n ih =>
    intro rows m t hlen hok
    by_cases hrows : rows = []
    · subst hrows
      rw [grow_empty] at hok
      injection hok with hok
      subst hok
      simp [SplitOptimal]
    · by_cases hnan : jIsNaN (m rows) = true
      · rw [grow_nan rows m hrows hnan] at hok
        exact Except.noConfusion hok
      · rw [Bool.not_eq_true] at hnan
        by_cases hpos : jgtB (findBestSplit rows m (m rows)).bestGain (.num 0) = true
        · obtain ⟨cd0, ha, hs, hval, hgain⟩ := findBestSplit_pos rows m (m rows) hpos
          rw [grow_split rows m (divideSet rows cd0.1 cd0.2).1 (divideSet rows cd0.1 cd0.2).2
            cd0 hrows hnan hpos (by rw [hs]) ha] at hok
          cases hok1 : growDecisionTreeFrom (divideSet rows cd0.1 cd0.2).1 m with
          | error e =>
            rw [hok1] at hok
            exact Except.noConfusion hok
          | ok t1 =>
            cases hok2 : growDecisionTreeFrom (divideSet rows cd0.1 cd0.2).2 m with
            | error e =>
              rw [hok1, hok2] at hok
              exact Except.noConfusion hok
            | ok t2 =>
              rw [hok1, hok2] at hok
              injection hok with hok
              subst hok
              have hlens := validCand_lengths hval
              have h1 := ih (divideSet rows cd0.1 cd0.2).1 m t1 (by omega) hok1
              have h2 := ih (divideSet rows cd0.1 cd0.2).2 m t2 (by omega) hok2
              have hc := (findBestSplit_spec rows m (m rows)).2 cd0 ha
              show SplitOptimal m rows (.mk (cd0.1 : ℤ) cd0.2 (some t1) (some t2) none _)
              simp only [SplitOptimal]
              refine ⟨cd0.1, rfl, ?_, ?_, ?_, ?_, h1, h2⟩
              · exact hc.1
              · rw [← hc.2.1]
                exact hc.2.2.1
              · intro cd hmem hvcd
                have := hc.2.2.2.2.1 cd hmem hvcd
                rw [hc.2.1] at this
                exact this
              · have := hc.2.2.2.2.2
                rw [hc.2.1] at this
                exact this
        · rw [Bool.not_eq_true] at hpos
          rw [grow_leaf rows m hrows hnan hpos] at hok
          injection hok with hok
          subst hok
          simp [SplitOptimal]

lemma grow_rows34 :
    growDecisionTreeFrom [[.num 3, .str "B"], [.num 4, .str "B"]] gini
      = .ok (.mk (-1) .null none none (some [("B", .num 2)]) (some ⟨"0.00", 2⟩)) := by
  rw [grow_leaf _ _ (by decide) (by with_unfolding_all decide) (by with_unfolding_all decide)]
  with_unfolding_all rfl

lemma grow_rows12 :
    growDecisionTreeFrom [[.num 1, .str "A"], [.num 2, .str "A"]] gini
      = .ok (.mk (-1) .null none none (some [("A", .num 2)]) (some ⟨"0.00", 2⟩)) := by
  rw [grow_leaf _ _ (by decide) (by with_unfolding_all decide) (by with_unfolding_all decide)]
  with_unfolding_all rfl

lemma grow_rows4 : growDecisionTreeFrom rows4 gini = .ok tree4 := by
  rw [grow_split rows4 gini
    [[.num 3, .str "B"], [.num 4, .str "B"]] [[.num 1, .str "A"], [.num 2, .str "A"]]
    (0, .num 3) (by decide) (by with_unfolding_all decide) (by with_unfolding_all decide)
    (by with_unfolding_all decide) (by with_unfolding_all decide)]
  rw [grow_rows34, grow_rows12]
  with_unfolding_all rfl

lemma prune_no_trueBranch (c : ℤ) (v : Cell) (fb : Option DecisionTree) (res : Option Dist)
    (sm : Option Summary) (g : ℚ) (m : Metric) (nf : Bool) :
    prune (.mk c v none fb res sm) g m nf
      = .error (.typeError "Cannot read properties of undefined (reading results)") := by
  conv_lhs => unfold prune

lemma prune_node (c : ℤ) (v : Cell) (tb fb : DecisionTree) (res : Option Dist)
    (sm : Option Summary) (g : ℚ) (m : Metric) (nf : Bool) :
    prune (.mk c v (some tb) (some fb) res sm) g m nf =
      (if tb.results.isNone then prune tb g m nf else .ok tb).bind fun tb2 =>
        (if fb.results.isNone then prune fb g m nf else .ok fb).bind fun fb2 =>
          .ok (pruneMerge c v res sm g m tb2 fb2) := by
  conv_lhs => unfold prune

lemma wfTree_shape {c : ℤ} {v : Cell} {tb fb : Option DecisionTree} {res : Option Dist}
    {sm : Option Summary} (h : wfTree (.mk c v tb fb res sm) = true) :
    (∃ r, res = some r ∧ tb = none ∧ fb = none) ∨
    (res = none ∧ ∃ t1 t2, tb = some t1 ∧ fb = some t2 ∧
      wfTree t1 = true ∧ wfTree t2 = true) := by
  cases res with
  | none =>
    cases tb with
    | none => exact absurd h (by cases fb <;> simp [wfTree])
    | some t1 =>
      cases fb with
      | none => exact absurd h (by simp [wfTree])
      | some t2 =>
        simp only [wfTree, Bool.and_eq_true] at h
        exact Or.inr ⟨rfl, t1, t2, rfl, rfl, h.1, h.2⟩
  | some r =>
    cases tb with
    | none =>
      cases fb with
      | none => exact Or.inl ⟨r, rfl, rfl, rfl⟩
      | some t2 => exact absurd h (by simp [wfTree])
    | some t1 => exact absurd h (by cases fb <;> simp [wfTree])

lemma pruneMerge_wf {tb2 fb2 : DecisionTree} (c : ℤ) (v : Cell) (sm : Option Summary)
    (g : ℚ) (m : Metric) (h1 : wfTree tb2 = true) (h2 : wfTree fb2 = true) :
    wfTree (pruneMerge c v none sm g m tb2 fb2) = true := by
  unfold pruneMerge
  split
  · split
    · rfl
    · simp only [wfTree]
      rw [h1, h2]
      rfl
  · simp only [wfTree]
    rw [h1, h2]
    rfl

lemma prune_wf_aux : ∀ (n : ℕ) (t : DecisionTree) (g : ℚ) (m : Metric) (nf : Bool),
    sizeOf t ≤ n → wfTree t = true → t.results = none →
    ∃ t2, prune t g m nf = .ok t2 ∧ wfTree t2 = true := by
  intro n
  induction n with
  | zero =>
    intro t g m nf hsz _ _
    cases t with
    | mk c v tb fb res sm => simp at hsz
  | succ n ih =>
    intro t g m nf hsz hwf hres
    cases t with
    | mk c v tb fb res sm =>
      have hres2 : res = none := hres
      subst hres2
      rcases wfTree_shape hwf with ⟨r, hr, -, -⟩ | ⟨-, t1, t2, htb, hfb, hw1, hw2⟩
      · exact Option.noConfusion hr
      · subst htb
        subst hfb
        have hsz1 : sizeOf t1 ≤ n := by
          have := DecisionTree.mk.sizeOf_spec c v (some t1) (some t2) (none : Option Dist) sm
          simp at hsz
          omega
        have hsz2 : sizeOf t2 ≤ n := by
          simp at hsz
          omega
        rw [prune_node]
        have hstep1 : ∃ tb2, (if t1.results.isNone then prune t1 g m nf else .ok t1)
            = .ok tb2 ∧ wfTree tb2 = true := by
          cases hr1 : t1.results with
          | some r1 => exact ⟨t1, by simp, hw1⟩
          | none =>
            obtain ⟨tb2, hp, hwp⟩ := ih t1 g m nf hsz1 hw1 hr1
            exact ⟨tb2, by simpa using hp, hwp⟩
        have hstep2 : ∃ fb2, (if t2.results.isNone then prune t2 g m nf else .ok t2)
            = .ok fb2 ∧ wfTree fb2 = true := by
          cases hr2 : t2.results with
          | some r2 => exact ⟨t2, by simp, hw2⟩
          | none =>
            obtain ⟨fb2, hp, hwp⟩ := ih t2 g m nf hsz2 hw2 hr2
            exact ⟨fb2, by simpa using hp, hwp⟩
        obtain ⟨tb2, hp1, hwp1⟩ := hstep1
        obtain ⟨fb2, hp2, hwp2⟩ := hstep2
        rw [hp1, hp2]
        exact ⟨pruneMerge c v none sm g m tb2 fb2, rfl, pruneMerge_wf c v sm g m hwp1 hwp2⟩

lemma prune_wf_preserve {t t2 : DecisionTree} {g : ℚ} {m : Metric} {nf : Bool}
    (hwf : wfTree t = true) (hok : prune t g m nf = .ok t2) : wfTree t2 = true := by
  cases t with
  | mk c v tb fb res sm =>
    rcases wfTree_shape hwf with ⟨r, hr, htb, hfb⟩ | ⟨hres, t1a, t2a, htb, hfb, -, -⟩
    · subst htb
      subst hfb
      rw [prune_no_trueBranch] at hok
      exact Except.noConfusion hok
    · obtain ⟨t3, hp, hwp⟩ := prune_wf_aux (sizeOf (DecisionTree.mk c v tb fb res sm))
        (.mk c v tb fb res sm) g m nf le_rfl hwf hres
      rw [hp] at hok
      injection hok with hok
      subst hok
      exact hwp

lemma prunes_wf_preserve : ∀ (ops : List (ℚ × Metric × Bool)) (t t2 : DecisionTree),
    wfTree t = true → prunes ops t = .ok t2 → wfTree t2 = true := by
  intro ops
  induction ops with
  | nil =>
    intro t t2 hwf hok
    injection hok with hok
    subst hok
    exact hwf
  | cons op tl ih =>
    intro t t2 hwf hok
    rw [show prunes (op :: tl) t
        = (prune t op.1 op.2.1 op.2.2).bind (fun t3 => prunes tl t3) from rfl] at hok
    cases hp : prune t op.1 op.2.1 op.2.2 with
    | error e =>
      rw [hp] at hok
      exact Except.noConfusion hok
    | ok t3 =>
      rw [hp] at hok
      exact ih t3 t2 (prune_wf_preserve hwf hp) hok

lemma jsToLength_nat (n : ℕ) (hb : n < 2 ^ 53) : jsToLength (.num (n : ℚ)) = n := by
  simp only [jsToLength]
  split
  next h =>
    have hn0 : n = 0 := by exact_mod_cast le_antisymm (by exact_mod_cast h) (Nat.zero_le n)
    omega
  next h =>
    have hf : ((n : ℚ)).floor = (n : ℤ) := rfl
    rw [hf]
    simp only [Int.toNat_natCast]
    omega

lemma expandDist_length_nat {d : Dist}
    (h : ∀ p ∈ d, ∃ n : ℕ, n < 2 ^ 53 ∧ p.2 = JSNum.num (n : ℚ)) :
    ((expandDist d).length : ℚ) = (d.map (fun p => valQ p.2)).sum := by
  induction d with
  | nil => simp [expandDist]
  | cons hd tl ih =>
    obtain ⟨n, hb, hn⟩ := h hd (List.mem_cons_self _ _)
    have hrec := ih (fun p hp => h p (List.mem_cons_of_mem _ hp))
    simp only [expandDist, List.flatMap_cons, List.length_append, List.length_replicate,
      List.map_cons, List.sum_cons]
    rw [hn, jsToLength_nat n hb]
    rw [show valQ (JSNum.num (n : ℚ)) = (n : ℚ) from rfl]
    push_cast
    rw [← hrec]
    simp [expandDist]

lemma expand_counts_add {tr fr : Dist}
    (htr : ∀ p ∈ tr, ∃ n : ℕ, n < 2 ^ 53 ∧ p.2 = JSNum.num (n : ℚ))
    (hfr : ∀ p ∈ fr, ∃ n : ℕ, n < 2 ^ 53 ∧ p.2 = JSNum.num (n : ℚ)) :
    sumValues (uniqueCounts (expandDist tr ++ expandDist fr))
      = jadd (sumValues tr) (sumValues fr) := by
  rw [sumValues_uniqueCounts]
  have h1 : sumValues tr = .num ((tr.map (fun p => valQ p.2)).sum) :=
    sumValues_eq_valq (fun p hp => by
      obtain ⟨n, -, hn⟩ := htr p hp
      exact ⟨n, hn⟩)
  have h2 : sumValues fr = .num ((fr.map (fun p => valQ p.2)).sum) :=
    sumValues_eq_valq (fun p hp => by
      obtain ⟨n, -, hn⟩ := hfr p hp
      exact ⟨n, hn⟩)
  rw [h1, h2]
  show JSNum.num _ = JSNum.num _
  rw [List.length_append]
  push_cast
  rw [expandDist_length_nat htr, expandDist_length_nat hfr]

lemma distGet_distIncr (d : Dist) (k : String) (x : JSNum) (k2 : String) :
    distGet (distIncr d k x) k2
      = if k = k2 then jadd (distGet d k2) x else distGet d k2 := by
  induction d with
  | nil =>
    by_cases h : k = k2 <;> simp [distIncr, distGet, h]
  | cons hd tl ih =>
    obtain ⟨k0, v⟩ := hd
    by_cases h0 : k0 = k
    · subst h0
      by_cases h2 : k0 = k2 <;> simp [distIncr, distGet, h2]
    · by_cases h2 : k0 = k2
      · subst h2
        have hk : ¬ k = k0 := fun hc => h0 hc.symm
        simp [distIncr, distGet, h0, hk]
      · simp [distIncr, distGet, h0, h2, ih]

lemma distGet_absent {d : Dist} {k : String} (h : ¬ k ∈ d.map Prod.fst) :
    distGet d k = .num 0 := by
  induction d with
  | nil => rfl
  | cons hd tl ih =>
    simp only [List.map_cons, List.mem_cons] at h
    push_neg at h
    simp only [distGet]
    rw [if_neg (fun hc => h.1 hc.symm)]
    exact ih h.2

lemma distGet_fold_absent (d : Dist) (w : JSNum) (acc : Dist) (k : String)
    (hk : ¬ k ∈ d.map Prod.fst) :
    distGet (d.foldl (fun r p => distIncr r p.1 (jmul p.2 w)) acc) k = distGet acc k := by
  induction d generalizing acc with
  | nil => rfl
  | cons hd tl ih =>
    simp only [List.map_cons, List.mem_cons] at hk
    push_neg at hk
    rw [List.foldl_cons, ih _ hk.2, distGet_distIncr]
    rw [if_neg (fun hc => hk.1 hc.symm)]

lemma distGet_fold (d : Dist) (w : JSNum) (acc : Dist) (k : String)
    (hnd : (d.map Prod.fst).Nodup) :
    distGet (d.foldl (fun r p => distIncr r p.1 (jmul p.2 w)) acc) k =
      if k ∈ d.map Prod.fst then jadd (distGet acc k) (jmul (distGet d k) w)
      else distGet acc k := by
  induction d generalizing acc with
  | nil => rfl
  | cons hd tl ih =>
    obtain ⟨k0, v⟩ := hd
    simp only [List.map_cons, List.nodup_cons] at hnd
    rw [List.foldl_cons]
    by_cases hk : k = k0
    · subst hk
      rw [distGet_fold_absent tl w _ _ hnd.1]
      rw [distGet_distIncr, if_pos rfl]
      rw [if_pos (by simp)]
      have hv : distGet ((k, v) :: tl) k = v := by
        show (if k = k then v else distGet tl k) = v
        rw [if_pos rfl]
      rw [hv]
    · rw [ih _ hnd.2]
      have hget : distGet ((k0, v) :: tl) k = distGet tl k := by
        show (if k0 = k then v else distGet tl k) = distGet tl k
        rw [if_neg (fun hc => hk hc.symm)]
      by_cases hin : k ∈ tl.map Prod.fst
      · rw [if_pos hin, if_pos (by simp [hin]), distGet_distIncr,
          if_neg (fun hc => hk hc.symm), hget]
      · rw [if_neg hin, if_neg (by
            simp only [List.map_cons, List.mem_cons]
            rintro (hc | hc)
            · exact hk hc
            · exact hin hc),
          distGet_distIncr, if_neg (fun hc => hk hc.symm)]

lemma classifyMD_leaf (obs : List Cell) (c : ℤ) (v : Cell) (tb fb : Option DecisionTree)
    (r : Dist) (sm : Option Summary) :
    classifyWithMissingData obs (.mk c v tb fb (some r) sm) = .ok r := by
  conv_lhs => unfold classifyWithMissingData

lemma classifyExact_leaf (obs : List Cell) (c : ℤ) (v : Cell) (tb fb : Option DecisionTree)
    (r : Dist) (sm : Option Summary) :
    classifyWithoutMissingData obs (.mk c v tb fb (some r) sm) = .ok r := by
  conv_lhs => unfold classifyWithoutMissingData

lemma classifyMD_route (obs : List Cell) (c : ℤ) (v : Cell) (tb fb : DecisionTree)
    (sm : Option Summary) (hv : obsGet obs c ≠ Cell.null) :
    classifyWithMissingData obs (.mk c v (some tb) (some fb) none sm) =
      classifyWithMissingData obs
        (if (if isNumber (obsGet obs c) then cellGE (obsGet obs c) v
             else decide (obsGet obs c = v)) then tb else fb) := by
  conv_lhs => unfold classifyWithMissingData
  rw [if_neg hv]
  by_cases ht : (if isNumber (obsGet obs c) then cellGE (obsGet obs c) v
      else decide (obsGet obs c = v)) = true
  · rw [if_pos ht, if_pos ht]
  · rw [if_neg ht, if_neg ht]

lemma classifyExact_route (obs : List Cell) (c : ℤ) (v : Cell) (tb fb : DecisionTree)
    (sm : Option Summary) :
    classifyWithoutMissingData obs (.mk c v (some tb) (some fb) none sm) =
      classifyWithoutMissingData obs
        (if (if isNumber (obsGet obs c) then cellGE (obsGet obs c) v
             else decide (obsGet obs c = v)) then tb else fb) := by
  conv_lhs => unfold classifyWithoutMissingData
  by_cases ht : (if isNumber (obsGet obs c) then cellGE (obsGet obs c) v
      else decide (obsGet obs c = v)) = true
  · rw [if_pos ht, if_pos ht]
  · rw [if_neg ht, if_neg ht]

lemma classifyMD_null (obs : List Cell) (c : ℤ) (v : Cell) (tb fb : DecisionTree)
    (sm : Option Summary) (tr fr : Dist) (hv : obsGet obs c = Cell.null)
    (htr : classifyWithMissingData obs tb = .ok tr)
    (hfr : classifyWithMissingData obs fb = .ok fr) :
    classifyWithMissingData obs (.mk c v (some tb) (some fb) none sm)
      = .ok (mergeDists tr fr) := by
  conv_lhs => unfold classifyWithMissingData
  rw [if_pos hv]
  show (classifyWithMissingData obs tb).bind (fun tr2 =>
    (classifyWithMissingData obs fb).bind fun fr2 => Except.ok (mergeDists tr2 fr2)) = _
  rw [htr, hfr]
  rfl

lemma jmul_zero_left (x : ℚ) : jmul (.num 0) (.num x) = .num 0 := by
  show JSNum.num (0 * x) = JSNum.num 0
  norm_num

lemma distGet_mergeDists {tr fr : Dist} {a b : ℚ}
    (hndt : (tr.map Prod.fst).Nodup) (hndf : (fr.map Prod.fst).Nodup)
    (hst : sumValues tr = .num a) (hsf : sumValues fr = .num b) (hab : a + b ≠ 0)
    (k : String) :
    distGet (mergeDists tr fr) k
      = jadd (jmul (distGet tr k) (.num (a / (a + b))))
          (jmul (distGet fr k) (.num (b / (a + b)))) := by
  unfold mergeDists
  rw [hst, hsf]
  show distGet
      (List.foldl (fun acc p => distIncr acc p.1
          (jmul p.2 (jdiv (JSNum.num b) (jadd (JSNum.num a) (JSNum.num b)))))
        (List.foldl (fun acc p => distIncr acc p.1
          (jmul p.2 (jdiv (JSNum.num a) (jadd (JSNum.num a) (JSNum.num b))))) [] tr)
        fr) k = _
  rw [show jadd (JSNum.num a) (JSNum.num b) = JSNum.num (a + b) from rfl]
  rw [jdiv_num_num hab, jdiv_num_num hab]
  rw [distGet_fold fr (.num (b / (a + b))) _ k hndf]
  by_cases hkf : k ∈ fr.map Prod.fst
  · rw [if_pos hkf, distGet_fold tr (.num (a / (a + b))) _ k hndt]
    by_cases hkt : k ∈ tr.map Prod.fst
    · rw [if_pos hkt, show distGet ([] : Dist) k = .num 0 from rfl, jadd_zero_left]
    · rw [if_neg hkt, show distGet ([] : Dist) k = .num 0 from rfl, distGet_absent hkt,
        jmul_zero_left, jadd_zero_left]
  · rw [if_neg hkf, distGet_fold tr (.num (a / (a + b))) _ k hndt, distGet_absent hkf]
    by_cases hkt : k ∈ tr.map Prod.fst
    · rw [if_pos hkt, show distGet ([] : Dist) k = .num 0 from rfl, jadd_zero_left,
        jmul_zero_left, jadd_zero_right]
    · rw [if_neg hkt, distGet_absent hkt, show distGet ([] : Dist) k = .num 0 from rfl,
        jmul_zero_left, jmul_zero_left, jadd_zero_left]

lemma weights_sum_one {a b : ℚ} (hab : a + b ≠ 0) :
    jadd (.num (a / (a + b))) (.num (b / (a + b))) = .num 1 := by
  rw [show jadd (.num (a / (a + b))) (.num (b / (a + b)))
      = JSNum.num (a / (a + b) + b / (a + b)) from rfl]
  congr 1
  field_simp

lemma except_bind_ok {ε α β : Type} (a : α) (f : α → Except ε β) :
    (Except.ok a : Except ε α).bind f = f a := rfl

lemma grow_rowsBA : growDecisionTreeFrom rowsBA gini = .ok treeBA := by
  with_unfolding_all rfl

lemma sumCells_numeric_aux (data : List Cell) (h : ∀ c ∈ data, isNumber c = true) :
    ∀ a : ℚ, data.foldl jsPlusCell (.vnum (.num a))
      = .vnum (.num (a + (data.map (fun c => valQ (toNumber c))).sum)) := by
  induction data with
  | nil =>
    intro a
    simp
  | cons c tl ih =>
    intro a
    have hc := h c (List.mem_cons_self _ _)
    cases c with
    | num q =>
      rw [List.foldl_cons,
        show jsPlusCell (.vnum (.num a)) (.num q) = .vnum (.num (a + q)) from rfl,
        ih (fun c2 hc2 => h c2 (List.mem_cons_of_mem _ hc2)) (a + q)]
      simp only [List.map_cons, List.sum_cons]
      rw [show valQ (toNumber (Cell.num q)) = q from rfl]
      congr 2
      ring
    | str s => exact absurd hc (by simp [isNumber])
    | null => exact absurd hc (by simp [isNumber])
    | undef => exact absurd hc (by simp [isNumber])

lemma sumCells_numeric (data : List Cell) (h : ∀ c ∈ data, isNumber c = true) :
    sumCells data = .vnum (.num ((data.map (fun c => valQ (toNumber c))).sum)) := by
  have := sumCells_numeric_aux data h 0
  rw [show sumCells data = data.foldl jsPlusCell (.vnum (.num 0)) from rfl, this]
  norm_num

lemma sumNums_numeric (l : List JSNum) (h : ∀ x ∈ l, ∃ q : ℚ, x = .num q) :
    sumNums l = .num ((l.map valQ).sum) := by
  have := foldl_jadd_valq l h 0
  rw [show sumNums l = l.foldl jadd (.num 0) from rfl, this]
  norm_num

lemma except_bind_error {ε α β : Type} (e : ε) (f : α → Except ε β) :
    (Except.error e : Except ε α).bind f = .error e := rfl

lemma pruneMerge_eq (c : ℤ) (v : Cell) (res : Option Dist) (sm : Option Summary)
    (g : ℚ) (m : Metric) (tb2 fb2 : DecisionTree) (tr fr : Dist)
    (h1 : tb2.results = some tr) (h2 : fb2.results = some fr) :
    pruneMerge c v res sm g m tb2 fb2 =
      if jltB (pruneDelta m tr fr) (.num g) then
        .mk c v none none (some (uniqueCounts (expandDist tr ++ expandDist fr))) sm
      else .mk c v (some tb2) (some fb2) res sm := by
  unfold pruneMerge
  rw [h1, h2]

lemma pruneMerge_none (c : ℤ) (v : Cell) (res : Option Dist) (sm : Option Summary)
    (g : ℚ) (m : Metric) (tb2 fb2 : DecisionTree)
    (h : tb2.results = none ∨ fb2.results = none) :
    pruneMerge c v res sm g m tb2 fb2 = .mk c v (some tb2) (some fb2) res sm := by
  unfold pruneMerge
  rcases h with h | h
  · rw [h]
    try (cases fb2.results <;> rfl)
  · rw [h]
    try (cases tb2.results <;> rfl)

lemma prune_collapse_analysis (c : ℤ) (v : Cell) (tb fb : DecisionTree)
    (sm : Option Summary) (g : ℚ) (m : Metric) (nf : Bool) (t2 : DecisionTree)
    (hok : prune (.mk c v (some tb) (some fb) none sm) g m nf = .ok t2)
    (hleaf : t2.results.isSome = true) :
    ∃ tb2 fb2 tr fr,
      ((tb.results = none ∧ prune tb g m nf = .ok tb2) ∨
        (tb.results.isSome = true ∧ tb2 = tb)) ∧
      ((fb.results = none ∧ prune fb g m nf = .ok fb2) ∨
        (fb.results.isSome = true ∧ fb2 = fb)) ∧
      tb2.results = some tr ∧ fb2.results = some fr ∧
      jltB (pruneDelta m tr fr) (.num g) = true ∧
      t2 = .mk c v none none (some (uniqueCounts (expandDist tr ++ expandDist fr))) sm := by
  rw [prune_node] at hok
  have hchild1 : ∃ tb2, ((tb.results = none ∧ prune tb g m nf = .ok tb2) ∨
      (tb.results.isSome = true ∧ tb2 = tb)) ∧
      (if tb.results.isNone then prune tb g m nf else .ok tb) = .ok tb2 := by
    cases hr1 : tb.results with
    | some r1 => exact ⟨tb, Or.inr ⟨rfl, rfl⟩, rfl⟩
    | none =>
      cases hp1 : prune tb g m nf with
      | error e =>
        rw [hr1] at hok
        simp only [Option.isNone_none, eq_self_iff_true, if_true] at hok
        rw [hp1, except_bind_error] at hok
        exact Except.noConfusion hok
      | ok tb2 => exact ⟨tb2, Or.inl ⟨rfl, rfl⟩, rfl⟩
  obtain ⟨tb2, hspec1, heq1⟩ := hchild1
  rw [heq1, except_bind_ok] at hok
  have hchild2 : ∃ fb2, ((fb.results = none ∧ prune fb g m nf = .ok fb2) ∨
      (fb.results.isSome = true ∧ fb2 = fb)) ∧
      (if fb.results.isNone then prune fb g m nf else .ok fb) = .ok fb2 := by
    cases hr2 : fb.results with
    | some r2 => exact ⟨fb, Or.inr ⟨rfl, rfl⟩, rfl⟩
    | none =>
      cases hp2 : prune fb g m nf with
      | error e =>
        rw [hr2] at hok
        simp only [Option.isNone_none, eq_self_iff_true, if_true] at hok
        rw [hp2, except_bind_error] at hok
        exact Except.noConfusion hok
      | ok fb2 => exact ⟨fb2, Or.inl ⟨rfl, rfl⟩, rfl⟩
  obtain ⟨fb2, hspec2, heq2⟩ := hchild2
  rw [heq2, except_bind_ok] at hok
  injection hok with hok
  subst hok
  cases hrr1 : tb2.results with
  | none =>
    rw [pruneMerge_none c v none sm g m tb2 fb2 (Or.inl hrr1)] at hleaf
    exact absurd hleaf (by simp [DecisionTree.results])
  | some tr =>
    cases hrr2 : fb2.results with
    | none =>
      rw [pruneMerge_none c v none sm g m tb2 fb2 (Or.inr hrr2)] at hleaf
      exact absurd hleaf (by simp [DecisionTree.results])
    | some fr =>
      rw [pruneMerge_eq c v none sm g m tb2 fb2 tr fr hrr1 hrr2] at hleaf
      by_cases hdelta : jltB (pruneDelta m tr fr) (.num g) = true
      · exact ⟨tb2, fb2, tr, fr, hspec1, hspec2, hrr1, hrr2, hdelta,
          by rw [pruneMerge_eq c v none sm g m tb2 fb2 tr fr hrr1 hrr2, if_pos hdelta]⟩
      · rw [if_neg hdelta] at hleaf
        exact absurd hleaf (by simp [DecisionTree.results])

/-- C1 (corrected): every internal node produced by growDecisionTreeFrom
    records a split that is a valid candidate of the row set reaching the
    node (both partitions non-empty), whose gain is strictly greater than 0;
    no candidate with two non-empty partitions achieves a strictly larger
    gain, and the recorded split is the first candidate, in the iteration
    order of the code (columns in increasing index order, and within a
    column the deduplicated values in the order produced by the stable sort
    with comparator a - b), whose gain equals the winning gain.  The order
    is ascending for numeric values but stays first-occurrence order for
    values whose comparator result is NaN, such as strings, which corrects
    the ascending-sorted-order part of the claim. -/
theorem claim_C1 : ∀ (rows : List Row) (m : Metric) (t : DecisionTree),
    growDecisionTreeFrom rows m = .ok t → SplitOptimal m rows t :=
  fun rows m t h => splitOptimal_grow_aux rows.length rows m t le_rfl h

/-- C1 witness: the optimality property evaluated on the worked example. -/
theorem claim_C1_witness : SplitOptimal gini rows4 tree4 :=
  claim_C1 rows4 gini tree4 grow_rows4

/-- C1 counterexample: on a dataset whose only split column is categorical,
    the two candidates of column 0 tie at the winning gain one half and both
    have non-empty partitions; the value a sorts before b in ascending
    order, so the claim as stated predicts the chosen value a, but the code
    visits b first (first-occurrence order, since the a - b comparator is
    NaN on strings) and keeps b. -/
theorem claim_C1_counterexample :
    growDecisionTreeFrom rowsBA gini = .ok treeBA ∧
    treeBA.value = .str "b" ∧
    ¬ treeBA.value = .str "a" ∧
    validCand rowsBA (0, .str "a") = true ∧
    validCand rowsBA (0, .str "b") = true ∧
    gainOf rowsBA gini (gini rowsBA) (0, .str "a")
      = gainOf rowsBA gini (gini rowsBA) (0, .str "b") ∧
    jgtB (gainOf rowsBA gini (gini rowsBA) (0, .str "b")) (.num 0) = true ∧
    "a" < "b" ∧
    candidateList rowsBA = [(0, .str "b"), (0, .str "a")] := by
  refine ⟨grow_rowsBA, rfl, by decide, ?_, ?_, ?_, ?_, by with_unfolding_all decide, ?_⟩ <;>
    with_unfolding_all decide

/-- C2 (confirmed): summing the counts stored in the results maps over all
    leaves of a tree returned by growDecisionTreeFrom equals the number of
    rows of the input dataset. -/
theorem claim_C2 : ∀ (rows : List Row) (m : Metric) (t : DecisionTree),
    growDecisionTreeFrom rows m = .ok t → treeTotal t = .num (rows.length : ℚ) :=
  fun rows m t h => treeTotal_grow_aux rows.length rows m t le_rfl h

/-- C2 witness: the leaf totals of the worked example tree sum to 4. -/
theorem claim_C2_witness : treeTotal tree4 = .num ((rows4.length : ℚ)) :=
  claim_C2 rows4 gini tree4 grow_rows4

/-- C3 (confirmed): on the rows [[1, A], [2, A], [3, B], [4, B]] with the
    Gini metric, grow returns a root splitting column 0 at value 3 whose
    true branch is the leaf B: 2 and false branch the leaf A: 2; the root
    impurity is one half (stored as its three-significant-digit rendering
    0.500) and the winning gain is one half; exact classification of [3, x]
    returns B: 2 and missing-data classification of [null, x] returns the
    blend A: 1, B: 1. -/
theorem claim_C3 :
    growDecisionTreeFrom rows4 gini = .ok tree4 ∧
    gini rows4 = .num (1 / 2) ∧
    gainOf rows4 gini (gini rows4) (0, .num 3) = .num (1 / 2) ∧
    tree4.summary = some ⟨numToPrecision3 (.num (1 / 2)), 4⟩ ∧
    classify [.num 3, .null] tree4 false = .ok [("B", .num 2)] ∧
    classify [.null, .null] tree4 true = .ok [("B", .num 1), ("A", .num 1)] := by
  refine ⟨grow_rows4, ?_, ?_, ?_, ?_, ?_⟩ <;> with_unfolding_all rfl

/-- C6 (corrected): every node of a tree grown from a NON-EMPTY dataset
    satisfies the two-state invariant (results present exactly on childless
    nodes, both children present exactly when results is absent), and the
    invariant is preserved by prune and by any sequence of prune calls; the
    node returned for an empty dataset violates the invariant, having
    neither results nor children, which corrects the claim. -/
theorem claim_C6 :
    (∀ (rows : List Row) (m : Metric) (t : DecisionTree),
      rows ≠ [] → growDecisionTreeFrom rows m = .ok t → wfTree t = true) ∧
    (∀ (t t2 : DecisionTree) (g : ℚ) (m : Metric) (nf : Bool),
      wfTree t = true → prune t g m nf = .ok t2 → wfTree t2 = true) ∧
    (∀ (ops : List (ℚ × Metric × Bool)) (t t2 : DecisionTree),
      wfTree t = true → prunes ops t = .ok t2 → wfTree t2 = true) :=
  ⟨fun rows m t hne hok => wfTree_grow_aux rows.length rows m t le_rfl hne hok,
   fun _ _ _ _ _ hwf hok => prune_wf_preserve hwf hok,
   fun ops t t2 hwf hok => prunes_wf_preserve ops t t2 hwf hok⟩

/-- C6 witness: the invariant evaluated on the worked example tree and on
    its pruned collapse. -/
theorem claim_C6_witness :
    wfTree tree4 = true ∧
    wfTree (.mk 0 (.num 3) none none (some [("B", JSNum.num 2), ("A", JSNum.num 2)])
      (some ⟨"0.500", 4⟩)) = true :=
  ⟨claim_C6.1 rows4 gini tree4 (by decide) grow_rows4,
   claim_C6.2.1 tree4 (.mk 0 (.num 3) none none
       (some [("B", JSNum.num 2), ("A", JSNum.num 2)]) (some ⟨"0.500", 4⟩)) 1 gini false
     (by decide) (by with_unfolding_all rfl)⟩

/-- C6 counterexample: the node grown from the empty dataset has neither
    results nor children, so it is in neither of the two states and the
    claimed invariant fails on it. -/
theorem claim_C6_counterexample :
    growDecisionTreeFrom [] gini = .ok (.mk (-1) .null none none none none) ∧
    wfTree (.mk (-1) .null none none none none) = false :=
  ⟨grow_empty gini, by decide⟩

/-- C8 (corrected): for a non-empty row set, growDecisionTreeFrom throws
    exactly when the metric applied to the full row set is NaN (the code
    checks Number.isNaN, not finiteness, so an infinite score passes); when
    the top-level score is not NaN, the whole build succeeds and no error is
    raised anywhere in the recursion, because a chosen split always has
    non-NaN child scores. -/
theorem claim_C8 : ∀ (rows : List Row) (m : Metric), rows ≠ [] →
    ((growDecisionTreeFrom rows m).isOk = true ↔ jIsNaN (m rows) = false) := by
  intro rows m hne
  constructor
  · intro hok
    by_contra h
    rw [Bool.not_eq_false] at h
    rw [grow_nan rows m hne h] at hok
    exact Bool.noConfusion hok
  · intro hnan
    obtain ⟨t, ht⟩ := grow_ok_aux rows.length rows m le_rfl hnan
    rw [ht]
    rfl

/-- C8 witness: the equivalence evaluated on the worked example. -/
theorem claim_C8_witness :
    (growDecisionTreeFrom rows4 gini).isOk = true ↔ jIsNaN (gini rows4) = false :=
  claim_C8 rows4 gini (by decide)

/-- C8 counterexample: a metric that scores every row set as positive
    Infinity is not finite, yet the build succeeds, because the code only
    guards against NaN; this refutes the claimed equivalence with
    finiteness. -/
theorem claim_C8_counterexample :
    growDecisionTreeFrom [[.num 1, .str "A"]] constInfMetric
      = .ok (.mk (-1) .null none none (some [("A", .num 1)]) (some ⟨"Infinity", 1⟩)) ∧
    jIsFinite (constInfMetric [[.num 1, .str "A"]]) = false ∧
    ([[Cell.num 1, Cell.str "A"]] : List Row) ≠ [] := by
  refine ⟨?_, rfl, by decide⟩
  with_unfolding_all rfl

/-- C9 (corrected): growDecisionTreeFrom on an empty dataset raises no error
    and returns a bare node with no results, no children, and an EMPTY
    summary: the summary carries no sample-count field at all, rather than a
    sample count of 0 as claimed. -/
theorem claim_C9 : ∀ m : Metric,
    growDecisionTreeFrom [] m = .ok (.mk (-1) .null none none none none) :=
  grow_empty

/-- C9 counterexample: the empty-dataset node has no summary object, so
    there is no summary whose sample count is 0. -/
theorem claim_C9_counterexample :
    growDecisionTreeFrom [] gini = .ok (.mk (-1) .null none none none none) ∧
    (DecisionTree.mk (-1) Cell.null none none none none).summary = none ∧
    ¬ ∃ s : Summary, (DecisionTree.mk (-1) Cell.null none none none none).summary = some s ∧
        s.samples = 0 := by
  refine ⟨grow_empty gini, rfl, ?_⟩
  rintro ⟨s, hs, -⟩
  exact Option.noConfusion hs

/-- C10 (confirmed): prune is total only under the precondition that the
    root is an internal node with both children present: on every tree whose
    root carries no trueBranch (in particular every leaf, with results set
    and no children, as grown whenever no positive-gain split exists, and
    also the empty-dataset node), prune throws a TypeError by reading the
    results property of an undefined child instead of returning the tree
    unchanged; on a well-formed tree whose root is internal, prune
    succeeds. -/
theorem claim_C10 :
    (∀ (c : ℤ) (v : Cell) (res : Option Dist) (sm : Option Summary) (g : ℚ) (m : Metric)
        (nf : Bool),
      prune (.mk c v none none res sm) g m nf
        = .error (.typeError "Cannot read properties of undefined (reading results)")) ∧
    (∀ (t : DecisionTree) (g : ℚ) (m : Metric) (nf : Bool),
      wfTree t = true → t.trueBranch.isSome = true → (prune t g m nf).isOk = true) := by
  constructor
  · intro c v res sm g m nf
    exact prune_no_trueBranch c v none res sm g m nf
  · intro t g m nf hwf hsome
    cases t with
    | mk c v tb fb res sm =>
      rcases wfTree_shape hwf with ⟨r, hr, htb, hfb⟩ | ⟨hres, t1, t2a, htb, hfb, -, -⟩
      · subst htb
        exact absurd hsome (by simp [DecisionTree.trueBranch])
      · obtain ⟨t3, hp, -⟩ := prune_wf_aux (sizeOf (DecisionTree.mk c v tb fb res sm))
          (.mk c v tb fb res sm) g m nf le_rfl hwf hres
        rw [hp]
        rfl

/-- C10 witness: prune throws on a concrete leaf and succeeds on the worked
    example tree. -/
theorem claim_C10_witness :
    prune (.mk (-1) Cell.null none none (some [("B", JSNum.num 2)]) (some ⟨"0.00", 2⟩))
        1 gini false
      = .error (.typeError "Cannot read properties of undefined (reading results)") ∧
    (prune tree4 1 gini false).isOk = true :=
  ⟨claim_C10.1 (-1) .null (some [("B", JSNum.num 2)]) (some ⟨"0.00", 2⟩) 1 gini false,
   claim_C10.2 tree4 1 gini false (by decide) (by decide)⟩

/-- C4 (confirmed): prune collapses a node exactly when both of its children
    are (or, through the recursion, have become) leaves and the recomputed
    delta, metric of the combined re-expanded label multiset minus the
    share-weighted child metrics, is below minGain; on collapse the children
    are discarded and results becomes the label distribution of the combined
    multiset, whose total equals the sum of the two child totals (for the
    natural-number counts that uniqueCounts produces); when delta is not
    below minGain the node is left unchanged. -/
theorem claim_C4 :
    (∀ (c : ℤ) (v : Cell) (tb fb : DecisionTree) (res : Option Dist) (sm : Option Summary)
        (g : ℚ) (m : Metric) (nf : Bool) (tr fr : Dist),
      tb.results = some tr → fb.results = some fr →
      prune (.mk c v (some tb) (some fb) res sm) g m nf =
        .ok (if jltB (pruneDelta m tr fr) (.num g) then
              .mk c v none none (some (uniqueCounts (expandDist tr ++ expandDist fr))) sm
            else .mk c v (some tb) (some fb) res sm)) ∧
    (∀ tr fr : Dist,
      (∀ p ∈ tr, ∃ n : ℕ, n < 2 ^ 53 ∧ p.2 = JSNum.num (n : ℚ)) →
      (∀ p ∈ fr, ∃ n : ℕ, n < 2 ^ 53 ∧ p.2 = JSNum.num (n : ℚ)) →
      sumValues (uniqueCounts (expandDist tr ++ expandDist fr))
        = jadd (sumValues tr) (sumValues fr)) ∧
    (∀ (c : ℤ) (v : Cell) (tb fb : DecisionTree) (sm : Option Summary) (g : ℚ) (m : Metric)
        (nf : Bool) (t2 : DecisionTree),
      prune (.mk c v (some tb) (some fb) none sm) g m nf = .ok t2 →
      t2.results.isSome = true →
      ∃ tb2 fb2 tr fr,
        ((tb.results = none ∧ prune tb g m nf = .ok tb2) ∨
          (tb.results.isSome = true ∧ tb2 = tb)) ∧
        ((fb.results = none ∧ prune fb g m nf = .ok fb2) ∨
          (fb.results.isSome = true ∧ fb2 = fb)) ∧
        tb2.results = some tr ∧ fb2.results = some fr ∧
        jltB (pruneDelta m tr fr) (.num g) = true ∧
        t2 = .mk c v none none
          (some (uniqueCounts (expandDist tr ++ expandDist fr))) sm) := by
  refine ⟨?_, fun tr fr h1 h2 => expand_counts_add h1 h2,
    fun c v tb fb sm g m nf t2 hok hleaf =>
      prune_collapse_analysis c v tb fb sm g m nf t2 hok hleaf⟩
  intro c v tb fb res sm g m nf tr fr htr hfr
  rw [prune_node]
  rw [show tb.results.isNone = false from by rw [htr]; rfl,
    show fb.results.isNone = false from by rw [hfr]; rfl]
  simp only [Bool.false_eq_true, if_false]
  rw [except_bind_ok, except_bind_ok]
  rw [pruneMerge_eq c v res sm g m tb fb tr fr htr hfr]

/-- C4 witness: pruning the worked example tree with minGain 1 collapses the
    root into the combined leaf, and the combined counts add up. -/
theorem claim_C4_witness :
    prune tree4 1 gini false
      = .ok (.mk 0 (.num 3) none none (some [("B", JSNum.num 2), ("A", JSNum.num 2)])
          (some ⟨"0.500", 4⟩)) ∧
    sumValues (uniqueCounts
        (expandDist [("B", JSNum.num 2)] ++ expandDist [("A", JSNum.num 2)]))
      = jadd (sumValues [("B", JSNum.num 2)]) (sumValues [("A", JSNum.num 2)]) := by
  constructor
  · have h := claim_C4.1 0 (.num 3)
      (.mk (-1) .null none none (some [("B", JSNum.num 2)]) (some ⟨"0.00", 2⟩))
      (.mk (-1) .null none none (some [("A", JSNum.num 2)]) (some ⟨"0.00", 2⟩))
      none (some ⟨"0.500", 4⟩) 1 gini false [("B", JSNum.num 2)] [("A", JSNum.num 2)] rfl rfl
    rw [show tree4 = DecisionTree.mk 0 (.num 3)
        (some (.mk (-1) .null none none (some [("B", JSNum.num 2)]) (some ⟨"0.00", 2⟩)))
        (some (.mk (-1) .null none none (some [("A", JSNum.num 2)]) (some ⟨"0.00", 2⟩)))
        none (some ⟨"0.500", 4⟩) from rfl, h,
      if_pos (by with_unfolding_all decide)]
    with_unfolding_all rfl
  · refine claim_C4.2.1 [("B", JSNum.num 2)] [("A", JSNum.num 2)] ?_ ?_
    · intro p hp
      rw [List.mem_singleton] at hp
      subst hp
      exact ⟨2, by norm_num, rfl⟩
    · intro p hp
      rw [List.mem_singleton] at hp
      subst hp
      exact ⟨2, by norm_num, rfl⟩

/-- C5 (confirmed): at an internal node whose observation value is present
    (not the null sentinel), missing-data classification descends into the
    same branch as exact routing; at a node whose observation value is null
    it recursively classifies against both children and returns the merge in
    which each label weighs trueResult times tw plus falseResult times fw,
    with tw the share of the true totals and fw the share of the false
    totals, and tw + fw = 1 (a convex combination), for children whose
    result maps have distinct keys and a non-zero combined total. -/
theorem claim_C5 :
    (∀ (obs : List Cell) (c : ℤ) (v : Cell) (tb fb : DecisionTree) (sm : Option Summary),
      obsGet obs c ≠ Cell.null →
      classifyWithMissingData obs (.mk c v (some tb) (some fb) none sm)
          = classifyWithMissingData obs
              (if (if isNumber (obsGet obs c) then cellGE (obsGet obs c) v
                   else decide (obsGet obs c = v)) then tb else fb) ∧
      classifyWithoutMissingData obs (.mk c v (some tb) (some fb) none sm)
          = classifyWithoutMissingData obs
              (if (if isNumber (obsGet obs c) then cellGE (obsGet obs c) v
                   else decide (obsGet obs c = v)) then tb else fb)) ∧
    (∀ (obs : List Cell) (c : ℤ) (v : Cell) (tb fb : DecisionTree) (sm : Option Summary)
        (tr fr : Dist) (a b : ℚ),
      obsGet obs c = Cell.null →
      classifyWithMissingData obs tb = .ok tr →
      classifyWithMissingData obs fb = .ok fr →
      (tr.map Prod.fst).Nodup → (fr.map Prod.fst).Nodup →
      sumValues tr = .num a → sumValues fr = .num b → a + b ≠ 0 →
      classifyWithMissingData obs (.mk c v (some tb) (some fb) none sm)
          = .ok (mergeDists tr fr) ∧
      jdiv (.num a) (jadd (.num a) (.num b)) = .num (a / (a + b)) ∧
      (∀ k, distGet (mergeDists tr fr) k
          = jadd (jmul (distGet tr k) (.num (a / (a + b))))
              (jmul (distGet fr k) (.num (b / (a + b))))) ∧
      jadd (.num (a / (a + b))) (.num (b / (a + b))) = .num 1) := by
  constructor
  · intro obs c v tb fb sm hv
    exact ⟨classifyMD_route obs c v tb fb sm hv, classifyExact_route obs c v tb fb sm⟩
  · intro obs c v tb fb sm tr fr a b hv htr hfr hndt hndf hst hsf hab
    refine ⟨classifyMD_null obs c v tb fb sm tr fr hv htr hfr, ?_, ?_, weights_sum_one hab⟩
    · rw [show jadd (JSNum.num a) (JSNum.num b) = JSNum.num (a + b) from rfl]
      exact jdiv_num_num hab
    · exact fun k => distGet_mergeDists hndt hndf hst hsf hab k

/-- C5 witness: both parts evaluated on the worked example tree, with the
    observation [3, null] routing exactly and [null, null] blending the two
    leaves with equal weights. -/
theorem claim_C5_witness :
    (classifyWithMissingData [Cell.num 3, Cell.null]
        (.mk 0 (.num 3)
          (some (.mk (-1) .null none none (some [("B", JSNum.num 2)]) (some ⟨"0.00", 2⟩)))
          (some (.mk (-1) .null none none (some [("A", JSNum.num 2)]) (some ⟨"0.00", 2⟩)))
          none (some ⟨"0.500", 4⟩))
        = classifyWithMissingData [Cell.num 3, Cell.null]
            (if (if isNumber (obsGet [Cell.num 3, Cell.null] 0)
                 then cellGE (obsGet [Cell.num 3, Cell.null] 0) (.num 3)
                 else decide (obsGet [Cell.num 3, Cell.null] 0 = .num 3))
             then .mk (-1) .null none none (some [("B", JSNum.num 2)]) (some ⟨"0.00", 2⟩)
             else .mk (-1) .null none none (some [("A", JSNum.num 2)]) (some ⟨"0.00", 2⟩))) ∧
    (classifyWithMissingData [Cell.null, Cell.null]
        (.mk 0 (.num 3)
          (some (.mk (-1) .null none none (some [("B", JSNum.num 2)]) (some ⟨"0.00", 2⟩)))
          (some (.mk (-1) .null none none (some [("A", JSNum.num 2)]) (some ⟨"0.00", 2⟩)))
          none (some ⟨"0.500", 4⟩))
        = .ok (mergeDists [("B", JSNum.num 2)] [("A", JSNum.num 2)]) ∧
      (∀ k, distGet (mergeDists [("B", JSNum.num 2)] [("A", JSNum.num 2)]) k
          = jadd (jmul (distGet [("B", JSNum.num 2)] k) (.num ((2 : ℚ) / (2 + 2))))
              (jmul (distGet [("A", JSNum.num 2)] k) (.num ((2 : ℚ) / (2 + 2))))) ∧
      jadd (.num ((2 : ℚ) / (2 + 2))) (.num ((2 : ℚ) / (2 + 2))) = .num 1) := by
  constructor
  · exact (claim_C5.1 [Cell.num 3, Cell.null] 0 (.num 3) _ _ (some ⟨"0.500", 4⟩)
      (by decide)).1
  · have h := claim_C5.2 [Cell.null, Cell.null] 0 (.num 3)
      (.mk (-1) .null none none (some [("B", JSNum.num 2)]) (some ⟨"0.00", 2⟩))
      (.mk (-1) .null none none (some [("A", JSNum.num 2)]) (some ⟨"0.00", 2⟩))
      (some ⟨"0.500", 4⟩) [("B", JSNum.num 2)] [("A", JSNum.num 2)] 2 2
      (by decide) (classifyMD_leaf _ _ _ _ _ _ _) (classifyMD_leaf _ _ _ _ _ _ _)
      (by decide) (by decide) (by with_unfolding_all decide)
      (by with_unfolding_all decide) (by norm_num)
    exact ⟨h.1, h.2.2.1, h.2.2.2⟩

/-- C7 (corrected): variance returns 0 on an empty row set; on a non-empty
    row set it throws exactly when the FIRST non-numeric target value is
    truthy (the code tests the truthiness of the value returned by find, so
    falsy non-numbers such as null or the empty string slip through, which
    corrects the claimed equivalence with the mere existence of a
    non-numeric target); when every target is numeric it returns the mean
    squared deviation of the target values from their mean. -/
theorem claim_C7 : ∀ rows : List Row,
    (rows = [] → variance rows = .ok (.num 0)) ∧
    ((∃ e, variance rows = .error e) ↔
      (match (rows.map targetOf).find? (fun p => !isNumber p) with
        | some c => truthy c
        | none => false) = true) ∧
    ((∀ cell ∈ rows.map targetOf, isNumber cell = true) → rows ≠ [] →
      variance rows
        = .ok (.num (msdQ (rows.map (fun r => valQ (toNumber (targetOf r))))))) := by
  intro rows
  have hvar : variance rows =
      (if rows.isEmpty then .ok (.num 0)
       else if (match (rows.map targetOf).find? (fun p => !isNumber p) with
           | some c => truthy c
           | none => false) then
         .error (.error "Cannot use variance function when the target column is a string.")
       else
         .ok (jdiv
           (sumNums ((rows.map targetOf).map (fun d =>
             let dm := jsub (toNumber d)
               (jdiv (jsvalToNumber (sumCells (rows.map targetOf)))
                 (.num (((rows.map targetOf).length : ℚ))))
             jmul dm dm)))
           (.num (((rows.map targetOf).length : ℚ))))) := rfl
  refine ⟨?_, ?_, ?_⟩
  · rintro rfl
    rfl
  · rw [hvar]
    by_cases hne : rows.isEmpty = true
    · rw [if_pos hne]
      rw [List.isEmpty_iff] at hne
      subst hne
      simp
    · rw [if_neg hne]
      by_cases hcond : (match (rows.map targetOf).find? (fun p => !isNumber p) with
          | some c => truthy c
          | none => false) = true
      · rw [if_pos hcond]
        exact ⟨fun _ => hcond, fun _ => ⟨_, rfl⟩⟩
      · rw [if_neg hcond]
        constructor
        · rintro ⟨e, he⟩
          exact Except.noConfusion he
        · intro hc
          exact absurd hc hcond
  · intro hnum hne
    rw [hvar]
    rw [if_neg (show ¬ rows.isEmpty = true from by
      rw [List.isEmpty_iff]
      exact hne)]
    have hfind : (rows.map targetOf).find? (fun p => !isNumber p) = none :=
      List.find?_eq_none.mpr (fun x hx => by simp [hnum x hx])
    rw [hfind]
    rw [if_neg (by simp)]
    have hlen : (((rows.map targetOf).length : ℚ)) ≠ 0 := by
      rw [List.length_map]
      have : rows.length ≠ 0 := fun hc => hne (List.length_eq_zero.mp hc)
      exact_mod_cast this
    rw [sumCells_numeric (rows.map targetOf) hnum]
    rw [show jsvalToNumber (JSVal.vnum
        (.num (((rows.map targetOf).map (fun c => valQ (toNumber c))).sum)))
      = JSNum.num (((rows.map targetOf).map (fun c => valQ (toNumber c))).sum) from rfl]
    rw [jdiv_num_num hlen]
    have hmap : (rows.map targetOf).map (fun d =>
        let dm := jsub (toNumber d)
          (.num ((((rows.map targetOf).map (fun c => valQ (toNumber c))).sum)
            / (((rows.map targetOf).length : ℚ))))
        jmul dm dm)
        = (rows.map targetOf).map (fun d => JSNum.num
            ((valQ (toNumber d)
                - (((rows.map targetOf).map (fun c => valQ (toNumber c))).sum)
                  / (((rows.map targetOf).length : ℚ)))
              * (valQ (toNumber d)
                - (((rows.map targetOf).map (fun c => valQ (toNumber c))).sum)
                  / (((rows.map targetOf).length : ℚ))))) := by
      apply List.map_congr_left
      intro c hc
      have hcn := hnum c hc
      cases c with
      | num q => rfl
      | str s => exact absurd hcn (by simp [isNumber])
      | null => exact absurd hcn (by simp [isNumber])
      | undef => exact absurd hcn (by simp [isNumber])
    rw [hmap]
    rw [sumNums_numeric _ (by
      intro x hx
      obtain ⟨c, -, hcx⟩ := List.mem_map.mp hx
      exact ⟨_, hcx.symm⟩)]
    rw [jdiv_num_num hlen]
    simp only [msdQ, List.map_map, List.length_map]
    congr 3

/-- C7 witness: the amended behaviour evaluated on a concrete two-row
    numeric dataset, whose variance is 1. -/
theorem claim_C7_witness :
    variance [[Cell.num 1], [Cell.num 3]]
        = .ok (.num (msdQ ([[Cell.num 1], [Cell.num 3]].map
            (fun r => valQ (toNumber (targetOf r)))))) ∧
    msdQ ([[Cell.num 1], [Cell.num 3]].map (fun r => valQ (toNumber (targetOf r)))) = 1 := by
  constructor
  · exact (claim_C7 [[Cell.num 1], [Cell.num 3]]).2.2 (by decide) (by decide)
  · with_unfolding_all decide

/-- C7 counterexample: a single row whose target is null has a non-numeric
    target, yet variance returns 0 instead of throwing, because null is
    falsy and slips through the find-based check. -/
theorem claim_C7_counterexample :
    variance [[Cell.null]] = .ok (.num 0) ∧
    isNumber (targetOf [Cell.null]) = false := by
  constructor
  · with_unfolding_all rfl
  · rfl

end DTrees

